import Mathlib

/-!
Shallow embedding of the filestream repository (Go): the wire codec
(JSON-encoded headers delimited by 0x00, chunked bodies), the stream
Writer (encode.go and the deferred-header variant), and the stream
Reader (the boolean-advance variant), together with read/write drivers.

Bytes are modelled as natural numbers (every byte the embedded code
produces is below 256); Go strings that reach JSON encoding are
modelled as lists of unicode scalar values (List Char), matching valid
UTF-8 Go strings.
-/

namespace Filestream

/-- ASCII bytes of a Lean string literal (used for fixed JSON keys). -/
def asciiBytes (s : String) : List Nat :=
  s.toList.map Char.toNat

/-- Lowercase hexadecimal digit byte, as emitted by encoding/json
for control-character escapes. -/
def hexDig (n : Nat) : Nat :=
  if n < 10 then 48 + n else 87 + n

/-- Tail-recursive core of decimal rendering, as strconv.Itoa /
encoding/json number encoding produce for non-negative integers. -/
def natDigitsCore : Nat → List Nat → List Nat
  | n, acc =>
    if h : n < 10 then (48 + n) :: acc
    else natDigitsCore (n / 10) ((48 + n % 10) :: acc)
  termination_by n => n
  decreasing_by exact Nat.div_lt_self (by omega) (by omega)

/-- Decimal ASCII digits of a natural number (strconv.Itoa for n ≥ 0). -/
def natDigits (n : Nat) : List Nat :=
  natDigitsCore n []

/-- One step of digit accumulation used when parsing decimal tokens. -/
def isDigit (b : Nat) : Bool :=
  48 ≤ b && b ≤ 57

/-- Consume leading decimal digits, returning the accumulated value and
the rest (helper shared by strconv.Atoi and the JSON number parser). -/
def readDigits : List Nat → Nat → Nat × List Nat
  | b :: bs, acc =>
    if isDigit b then readDigits bs (acc * 10 + (b - 48)) else (acc, b :: bs)
  | [], acc => (acc, [])

/-- Unsigned part of strconv.Atoi: at least one digit and nothing
else after the digits. -/
def atoiDigits (s : List Nat) : Option Nat :=
  match s with
  | [] => none
  | b :: _ =>
    if isDigit b then
      match readDigits s 0 with
      | (v, []) => some v
      | (_, _ :: _) => none
    else none

/-- strconv.Atoi on the bytes of a token: optional single sign, then
at least one digit, nothing else.  (The 64-bit range check of the Go
function is omitted; no stream below carries an out-of-range token.) -/
def atoi (s : List Nat) : Option Int :=
  match s with
  | [] => none
  | b :: rest =>
    if b = 43 then (atoiDigits rest).map Int.ofNat
    else if b = 45 then (atoiDigits rest).map (fun v => -(Int.ofNat v))
    else (atoiDigits (b :: rest)).map Int.ofNat

/-- bufio.Reader.ReadString 0x00: split off the bytes before the first
0x00 byte, consuming the delimiter; none models the io.EOF case where
no delimiter remains in the stream. -/
def readString0 : List Nat → Option (List Nat × List Nat)
  | [] => none
  | 0 :: rest => some ([], rest)
  | b :: rest =>
    match readString0 rest with
    | none => none
    | some (tok, rem) => some (b :: tok, rem)

/-- UTF-8 bytes of a unicode scalar value, as Go emits raw string
content (1 to 4 bytes). -/
def utf8Bytes (n : Nat) : List Nat :=
  if n < 0x80 then [n]
  else if n < 0x800 then [0xC0 + n / 64, 0x80 + n % 64]
  else if n < 0x10000 then
    [0xE0 + n / 4096, 0x80 + n / 64 % 64, 0x80 + n % 64]
  else
    [0xF0 + n / 262144, 0x80 + n / 4096 % 64, 0x80 + n / 64 % 64, 0x80 + n % 64]

/-- encoding/json string escaping with HTML escaping on (the Encoder
default used by the source): quote, backslash, newline, carriage
return and tab get two-byte escapes; other control characters and the
HTML-sensitive characters get \u00xx escapes; U+2028 and U+2029 get
  and  ; everything else is raw UTF-8. -/
def escapeChar (c : Char) : List Nat :=
  if c = '"' then [92, 34]
  else if c = '\\' then [92, 92]
  else if c = '\n' then [92, 110]
  else if c = '\r' then [92, 114]
  else if c = '\t' then [92, 116]
  else if c.toNat < 0x20 ∨ c = '<' ∨ c = '>' ∨ c = '&' then
    [92, 117, 48, 48, hexDig (c.toNat / 16), hexDig (c.toNat % 16)]
  else if c.toNat = 0x2028 ∨ c.toNat = 0x2029 then
    [92, 117, 50, 48, 50, hexDig (c.toNat % 16)]
  else utf8Bytes c.toNat

/-- JSON encoding of a string value: quote, escaped content, quote. -/
def encodeJSONString (s : List Char) : List Nat :=
  34 :: s.flatMap escapeChar ++ [34]

/-- Hexadecimal digit value accepted by the JSON \uXXXX escape. -/
def hexVal (b : Nat) : Option Nat :=
  if 48 ≤ b ∧ b ≤ 57 then some (b - 48)
  else if 97 ≤ b ∧ b ≤ 102 then some (b - 87)
  else if 65 ≤ b ∧ b ≤ 70 then some (b - 55)
  else none

/-- Scalar value from four hex digit bytes of a \uXXXX escape. -/
def hex4 (a b c d : Nat) : Option Nat :=
  match hexVal a, hexVal b, hexVal c, hexVal d with
  | some x, some y, some z, some w => some (((x * 16 + y) * 16 + z) * 16 + w)
  | _, _, _, _ => none

/-- Whether a byte starts a UTF-8 continuation (10xxxxxx). -/
def isCont (b : Nat) : Bool :=
  0x80 ≤ b && b < 0xC0

/-!
Body of a JSON string as encoding/json unquotes it: bytes up to the
closing quote, decoding escapes (including surrogate pairs, which
combine to a supplementary scalar, lone surrogates becoming U+FFFD)
and multi-byte UTF-8 sequences.  Inputs reaching this parser in the
development are always encoder output, so the stricter rejection of
overlong or surrogate UTF-8 encodings done by Go never fires; such
byte shapes are rejected here.
-/

/-- One producing step of the JSON string scanner per unit of fuel:
a closing quote ends the string; a backslash consumes a whole escape
sequence (including a surrogate-pair lookahead); any other byte is a
raw character, multi-byte UTF-8 sequences consumed whole.  Fuel is a
termination device only; the callers below always supply more fuel
than bytes, which one character can never outlast. -/
def parseStrChars : Nat → List Nat → Option (List Char × List Nat)
  | 0, _ => none
  | fuel + 1, s =>
    match s with
    | [] => none
    | b :: rest =>
      if b = 34 then some ([], rest)
      else if b = 92 then
        match rest with
        | [] => none
        | e :: more =>
          if e = 34 then (parseStrChars fuel more).map (fun p => ('"' :: p.1, p.2))
          else if e = 92 then (parseStrChars fuel more).map (fun p => ('\\' :: p.1, p.2))
          else if e = 47 then (parseStrChars fuel more).map (fun p => ('/' :: p.1, p.2))
          else if e = 98 then (parseStrChars fuel more).map (fun p => ('\x08' :: p.1, p.2))
          else if e = 102 then (parseStrChars fuel more).map (fun p => ('\x0c' :: p.1, p.2))
          else if e = 110 then (parseStrChars fuel more).map (fun p => ('\n' :: p.1, p.2))
          else if e = 114 then (parseStrChars fuel more).map (fun p => ('\r' :: p.1, p.2))
          else if e = 116 then (parseStrChars fuel more).map (fun p => ('\t' :: p.1, p.2))
          else if e = 117 then
            match more with
            | a :: b2 :: c :: d :: more1 =>
              match hex4 a b2 c d with
              | none => none
              | some v =>
                if v < 0xD800 ∨ 0xE000 ≤ v then
                  (parseStrChars fuel more1).map (fun p => (Char.ofNat v :: p.1, p.2))
                else if v < 0xDC00 then
                  match more1 with
                  | 92 :: 117 :: e2 :: f2 :: g2 :: h2 :: more2 =>
                    match hex4 e2 f2 g2 h2 with
                    | some w =>
                      if 0xDC00 ≤ w ∧ w < 0xE000 then
                        (parseStrChars fuel more2).map (fun p =>
                          (Char.ofNat (0x10000 + (v - 0xD800) * 1024 + (w - 0xDC00)) :: p.1, p.2))
                      else (parseStrChars fuel more1).map (fun p => ('\uFFFD' :: p.1, p.2))
                    | none => (parseStrChars fuel more1).map (fun p => ('\uFFFD' :: p.1, p.2))
                  | _ => (parseStrChars fuel more1).map (fun p => ('\uFFFD' :: p.1, p.2))
                else (parseStrChars fuel more1).map (fun p => ('\uFFFD' :: p.1, p.2))
            | _ => none
          else none
      else if b < 0x20 then none
      else if b < 0x80 then (parseStrChars fuel rest).map (fun p => (Char.ofNat b :: p.1, p.2))
      else if b < 0xC0 then none
      else if b < 0xE0 then
        match rest with
        | b1 :: more =>
          if isCont b1 then
            (parseStrChars fuel more).map (fun p =>
              (Char.ofNat ((b - 0xC0) * 64 + (b1 - 0x80)) :: p.1, p.2))
          else none
        | [] => none
      else if b < 0xF0 then
        match rest with
        | b1 :: b2 :: more =>
          if isCont b1 ∧ isCont b2 then
            (parseStrChars fuel more).map (fun p =>
              (Char.ofNat (((b - 0xE0) * 64 + (b1 - 0x80)) * 64 + (b2 - 0x80)) :: p.1, p.2))
          else none
        | _ => none
      else
        match rest with
        | b1 :: b2 :: b3 :: more =>
          if b < 0x100 ∧ isCont b1 ∧ isCont b2 ∧ isCont b3 then
            (parseStrChars fuel more).map (fun p =>
              (Char.ofNat ((((b - 0xF0) * 64 + (b1 - 0x80)) * 64 + (b2 - 0x80)) * 64
                + (b3 - 0x80)) :: p.1, p.2))
          else none
        | _ => none

/-- A JSON string value: opening quote then body. -/
def parseJSONString : List Nat → Option (List Char × List Nat)
  | 34 :: rest => parseStrChars (rest.length + 1) rest
  | _ => none

/-- A JSON number value restricted to the integer forms the embedded
records carry: optional minus sign then decimal digits.  (Fractional
and exponent forms would be rejected downstream by Unmarshal into the
integer-typed fields of the header structs; they never occur in the
streams considered here.) -/
def parseJSONNumber : List Nat → Option (Int × List Nat)
  | [] => none
  | b :: rest =>
    if b = 45 then
      match rest with
      | b2 :: _ =>
        if isDigit b2 then
          match readDigits rest 0 with
          | (v, rem) => some (-(Int.ofNat v), rem)
        else none
      | [] => none
    else if isDigit b then
      match readDigits (b :: rest) 0 with
      | (v, rem) => some (Int.ofNat v, rem)
    else none

/-- JSON insignificant whitespace. -/
def isWS (b : Nat) : Bool :=
  b = 32 || b = 9 || b = 10 || b = 13

/-- Skip insignificant whitespace. -/
def skipWS (s : List Nat) : List Nat :=
  s.dropWhile isWS

/-- A JSON value of the shapes the header records carry. -/
inductive JVal where
  | str (s : List Char)
  | num (n : Int)
  deriving DecidableEq, Repr

/-- Parse a JSON string or number value.  (Other value shapes never
occur in the records the embedded code exchanges; Unmarshal into the
integer- and string-typed header fields rejects them anyway.) -/
def parseJVal (s : List Nat) : Option (JVal × List Nat) :=
  match s with
  | [] => none
  | b :: _ =>
    if b = 34 then (parseJSONString s).map (fun p => (JVal.str p.1, p.2))
    else (parseJSONNumber s).map (fun p => (JVal.num p.1, p.2))

/-- Member loop of a JSON object, one field assignment per member, as
json.Unmarshal fills a struct.  Fuel only bounds the number of
members; callers pass at least the length of the input. -/
def parseMembersLoop {α : Type} (assign : α → List Char → JVal → Option α) :
    Nat → α → List Nat → Option (α × List Nat)
  | 0, _, _ => none
  | fuel + 1, h, s =>
    match parseJSONString (skipWS s) with
    | none => none
    | some (key, s1) =>
      match skipWS s1 with
      | 58 :: s2 =>
        match parseJVal (skipWS s2) with
        | none => none
        | some (v, s3) =>
          match assign h key v with
          | none => none
          | some h2 =>
            match skipWS s3 with
            | 44 :: s4 => parseMembersLoop assign fuel h2 s4
            | 125 :: s4 => some (h2, s4)
            | _ => none
      | _ => none

/-- A JSON object filling a struct value field by field. -/
def parseJSONObject {α : Type} (assign : α → List Char → JVal → Option α)
    (h0 : α) (s : List Nat) : Option (α × List Nat) :=
  match skipWS s with
  | 123 :: s1 =>
    match skipWS s1 with
    | 125 :: s2 => some (h0, s2)
    | _ => parseMembersLoop assign (s1.length + 1) h0 s1
  | _ => none

/-- fileHeader (headers.go): path, optional owner user and group,
permission mode word.  Strings are unicode text; mode is the uint32
value of os.FileMode. -/
structure FileHeader where
  path : List Char
  user : List Char
  group : List Char
  mode : Nat
  deriving DecidableEq, Repr

/-- The zero value of fileHeader, the starting point of Unmarshal. -/
def FileHeader.zero : FileHeader :=
  ⟨[], [], [], 0⟩

/-- streamHeader (headers.go): format version and compression name. -/
structure StreamHeader where
  version : Int
  compression : List Char
  deriving DecidableEq, Repr

/-- The zero value of streamHeader. -/
def StreamHeader.zero : StreamHeader :=
  ⟨0, []⟩

/-- Unmarshal field assignment for fileHeader: the json tags map keys
path, user, group (strings) and mode (number that must fit uint32);
unknown keys are ignored.  (Go also matches keys case-insensitively;
no record in this development carries such keys.) -/
def assignFileField (h : FileHeader) (key : List Char) (v : JVal) : Option FileHeader :=
  if key = "path".toList then
    match v with
    | JVal.str s => some { h with path := s }
    | JVal.num _ => none
  else if key = "user".toList then
    match v with
    | JVal.str s => some { h with user := s }
    | JVal.num _ => none
  else if key = "group".toList then
    match v with
    | JVal.str s => some { h with group := s }
    | JVal.num _ => none
  else if key = "mode".toList then
    match v with
    | JVal.str _ => none
    | JVal.num n =>
      match n with
      | Int.ofNat m => if m < 4294967296 then some { h with mode := m } else none
      | Int.negSucc _ => none
  else some h

/-- Unmarshal field assignment for streamHeader: version (number) and
compression (string). -/
def assignStreamField (h : StreamHeader) (key : List Char) (v : JVal) : Option StreamHeader :=
  if key = "version".toList then
    match v with
    | JVal.str _ => none
    | JVal.num n => some { h with version := n }
  else if key = "compression".toList then
    match v with
    | JVal.str s => some { h with compression := s }
    | JVal.num _ => none
  else some h

/-- json.Unmarshal of the bytes between delimiters into a fileHeader:
the object value followed only by whitespace. -/
def unmarshalFileHeader (jd : List Nat) : Option FileHeader :=
  match parseJSONObject assignFileField FileHeader.zero jd with
  | some (h, rest) => if skipWS rest = [] then some h else none
  | none => none

/-- json.Unmarshal of the bytes between delimiters into a streamHeader. -/
def unmarshalStreamHeader (jd : List Nat) : Option StreamHeader :=
  match parseJSONObject assignStreamField StreamHeader.zero jd with
  | some (h, rest) => if skipWS rest = [] then some h else none
  | none => none

/-- Compact joining of serialized object members, as the json encoder
separates them. -/
def joinComma : List (List Nat) → List Nat
  | [] => []
  | [m] => m
  | m :: ms => m ++ [44] ++ joinComma ms

/-- One serialized JSON object member: quoted key, colon, value bytes. -/
def jsonMember (key : String) (v : List Nat) : List Nat :=
  encodeJSONString key.toList ++ [58] ++ v

/-- The members json.Marshal emits for a fileHeader: struct field
order, user, group and mode dropped when zero (their omitempty tags). -/
def fileHeaderMembers (h : FileHeader) : List (List Nat) :=
  [jsonMember "path" (encodeJSONString h.path)]
  ++ (if h.user = [] then [] else [jsonMember "user" (encodeJSONString h.user)])
  ++ (if h.group = [] then [] else [jsonMember "group" (encodeJSONString h.group)])
  ++ (if h.mode = 0 then [] else [jsonMember "mode" (natDigits h.mode)])

/-- json.Marshal bytes of a fileHeader. -/
def encodeFileHeader (h : FileHeader) : List Nat :=
  [123] ++ joinComma (fileHeaderMembers h) ++ [125]

/-- The members json.Marshal emits for the streamHeader the writer
writes: version 0 always present, compression dropped when empty. -/
def streamHeaderMembers (compression : List Char) : List (List Nat) :=
  [jsonMember "version" (natDigits 0)]
  ++ (if compression = [] then []
      else [jsonMember "compression" (encodeJSONString compression)])

/-- json.Marshal bytes of the streamHeader the writer emits. -/
def encodeStreamHeader (compression : List Char) : List Nat :=
  [123] ++ joinComma (streamHeaderMembers compression) ++ [125]

/-- A header record on the wire: Encoder output (JSON plus newline)
followed by the 0x00 delimiter byte. -/
def headerRecord (h : FileHeader) : List Nat :=
  encodeFileHeader h ++ [10, 0]

/-- The stream header record written first by NewWriter. -/
def streamHeaderRecord (compression : List Char) : List Nat :=
  encodeStreamHeader compression ++ [10, 0]

/-- The terminator fileHeader: the reserved single-0x00-byte path. -/
def sentinelHeader : FileHeader :=
  ⟨['\x00'], [], [], 0⟩

/-- The terminator record Close emits. -/
def sentinelRecord : List Nat :=
  headerRecord sentinelHeader

/-- A chunk record: decimal ASCII length, 0x00, then the payload with
no trailing delimiter. -/
def chunkRecord (dat : List Nat) : List Nat :=
  natDigits dat.length ++ [0] ++ dat

/-- os.ModeDir: the directory bit of a FileMode word. -/
def modeDir : Nat :=
  2 ^ 31

/-- os.FileMode.IsDir: the directory bit is set. -/
def isDirMode (mode : Nat) : Bool :=
  mode.testBit 31

/-- The errors the Writer paths produce, one constructor per distinct
error value of encode.go / its deferred-header variant. -/
inductive WriteError where
  | streamClosed      -- filestream closed
  | closedFile        -- writing to file that has already been closed
  | alreadyStreaming  -- attempted to write another file while one is already streaming
  | illegalPath       -- illegal null character in file path
  | openBeforeFinish  -- attempted to open a file stream before finishing the previous
  | writeInterrupted  -- ErrWriteInterrupted
  deriving DecidableEq, Repr

/-- Writer: sequencing state plus the bytes written to the framing
layer (the bufio.Writer contents, all of which reach the destination
once flushed; in-memory writes never fail). -/
structure WriterState where
  curFile : Nat
  writing : Bool
  out : List Nat
  closed : Bool
  deriving DecidableEq, Repr

/-- The Writer NewWriter returns, after the stream header has been
written (the header bytes precede any compression and are accounted
separately from out). -/
def WriterState.init : WriterState :=
  ⟨0, false, [], false⟩

/-- FileOptions: permission word and optional owner names. -/
structure FileOptions where
  permissions : Nat
  user : List Char
  group : List Char
  deriving DecidableEq, Repr

/-- Writer.write (identical in encode.go and the variant file): checks
the stream is open and the handle is the active one, then appends one
chunk record and reports the full slice length. -/
def Writer.write (w : WriterState) (file : Nat) (dat : List Nat) :
    Except WriteError Nat × WriterState :=
  if w.closed then (.error .streamClosed, w)
  else if file ≠ w.curFile ∨ w.writing = false then (.error .closedFile, w)
  else (.ok dat.length, { w with out := w.out ++ chunkRecord dat })

/-- Writer.Close (identical in both files): marks the writer closed,
refuses to terminate an interrupted entry, otherwise appends the
terminator record (and flushes; the compressor close is modelled as
succeeding). -/
def Writer.close (w : WriterState) : Option WriteError × WriterState :=
  let w1 := { w with closed := true }
  if w1.writing then (some .writeInterrupted, w1)
  else (none, { w1 with out := w1.out ++ sentinelRecord })

/-- Writer.startFile of the deferred-header variant: sequencing and
path checks, then the claim on the entry number and the header record. -/
def Writer.startFileD (w : WriterState) (hdr : FileHeader) :
    Except WriteError Nat × WriterState :=
  if w.closed then (.error .streamClosed, w)
  else if w.writing then (.error .alreadyStreaming, w)
  else if hdr.path.contains '\x00' then (.error .illegalPath, w)
  else (.ok (w.curFile + 1),
    { w with curFile := w.curFile + 1, writing := true, out := w.out ++ headerRecord hdr })

/-- fileWriter of the deferred-header variant: fileNo 0 means the
header has not been emitted yet. -/
structure FileWriterD where
  fileNo : Nat
  hdr : FileHeader
  deriving DecidableEq, Repr

/-- Writer.File of the deferred-header variant: builds the handle and
touches nothing on the wire. -/
def Writer.fileD (path : List Char) (opts : FileOptions) : FileWriterD :=
  ⟨0, ⟨path, opts.user, opts.group, opts.permissions⟩⟩

/-- fileWriter.Write of the deferred-header variant: starts the entry
on first use, then returns without a record for an empty slice, else
appends exactly one chunk record. -/
def FileWriterD.write (w : WriterState) (fw : FileWriterD) (data : List Nat) :
    Except WriteError Nat × WriterState × FileWriterD :=
  if fw.fileNo = 0 then
    match Writer.startFileD w fw.hdr with
    | (.error e, w1) => (.error e, w1, fw)
    | (.ok no, w1) =>
      let fw1 := { fw with fileNo := no }
      if data = [] then (.ok 0, w1, fw1)
      else
        match Writer.write w1 no data with
        | (res, w2) => (res, w2, fw1)
  else if data = [] then (.ok 0, w, fw)
  else
    match Writer.write w fw.fileNo data with
    | (res, w1) => (res, w1, fw)

/-- fileWriter.Close of the deferred-header variant: starts the entry
if never written, appends the zero-length terminator chunk, and hands
the stream back. -/
def FileWriterD.close (w : WriterState) (fw : FileWriterD) :
    Option WriteError × WriterState × FileWriterD :=
  let step :=
    if fw.fileNo = 0 then FileWriterD.write w fw []
    else (.ok 0, w, fw)
  match step with
  | (.error e, w1, fw1) => (some e, w1, fw1)
  | (.ok _, w1, fw1) =>
    match Writer.write w1 fw1.fileNo [] with
    | (.error e, w2) => (some e, w2, fw1)
    | (.ok _, w2) => (none, { w2 with writing := false }, fw1)

/-- Writer.Directory of the deferred-header variant: File with the
directory bit forced on, immediately closed. -/
def Writer.directoryD (w : WriterState) (path : List Char) (opts : FileOptions) :
    Option WriteError × WriterState :=
  let fw := Writer.fileD path { opts with permissions := opts.permissions ||| modeDir }
  match FileWriterD.close w fw with
  | (e, w1, _) => (e, w1)

/-- fileWriter of encode.go: the entry number is claimed eagerly by
File; started tracks deferred header emission. -/
structure FileWriterE where
  fileNo : Nat
  started : Bool
  hdr : FileHeader
  deriving DecidableEq, Repr

/-- Writer.File of encode.go: refuses a second simultaneous entry,
otherwise claims the next entry number eagerly.  It checks neither
closed nor the path. -/
def Writer.fileE (w : WriterState) (path : List Char) (opts : FileOptions) :
    Except WriteError FileWriterE × WriterState :=
  if w.writing then (.error .openBeforeFinish, w)
  else (.ok ⟨w.curFile + 1, false, ⟨path, opts.user, opts.group, opts.permissions⟩⟩,
    { w with writing := true, curFile := w.curFile + 1 })

/-- Writer.startFile of encode.go: closed and path checks, then the
header record (sequencing was already enforced by File). -/
def Writer.startFileE (w : WriterState) (hdr : FileHeader) :
    Option WriteError × WriterState :=
  if w.closed then (some .streamClosed, w)
  else if hdr.path.contains '\x00' then (some .illegalPath, w)
  else (none, { w with out := w.out ++ headerRecord hdr })

/-- fileWriter.Write of encode.go: marks started before attempting the
deferred header, so a failed start is not retried. -/
def FileWriterE.write (w : WriterState) (fw : FileWriterE) (data : List Nat) :
    Except WriteError Nat × WriterState × FileWriterE :=
  if fw.started = false then
    let fw1 := { fw with started := true }
    match Writer.startFileE w fw.hdr with
    | (some e, w1) => (.error e, w1, fw1)
    | (none, w1) =>
      if data = [] then (.ok 0, w1, fw1)
      else
        match Writer.write w1 fw1.fileNo data with
        | (res, w2) => (res, w2, fw1)
  else if data = [] then (.ok 0, w, fw)
  else
    match Writer.write w fw.fileNo data with
    | (res, w1) => (res, w1, fw)

/-- fileWriter.Close of encode.go. -/
def FileWriterE.close (w : WriterState) (fw : FileWriterE) :
    Option WriteError × WriterState × FileWriterE :=
  let step :=
    if fw.started = false then FileWriterE.write w fw []
    else (.ok 0, w, fw)
  match step with
  | (.error e, w1, fw1) => (some e, w1, fw1)
  | (.ok _, w1, fw1) =>
    match Writer.write w1 fw1.fileNo [] with
    | (.error e, w2) => (some e, w2, fw1)
    | (.ok _, w2) => (none, { w2 with writing := false }, fw1)

/-- The errors the Reader paths produce. -/
inductive ReadError where
  | eof                -- io.EOF passed through by NewReader
  | unexpectedEOF      -- io.ErrUnexpectedEOF
  | badJSON            -- json.Unmarshal failure on a header record
  | badChunkLength     -- strconv.Atoi failure on a chunk length token
  | negativeChunk      -- a negative length token (Go would panic slicing)
  | seqNext            -- requested next file before finishing previous
  | excessData         -- excess data after the terminator record
  | nonEmptyDir        -- expected empty body for directory
  | unsupportedVersion -- declared version above fmtVersion
  | unsupportedAlgo    -- unsupported compression algorithm
  | outOfFuel          -- driver artifact, unreachable in the theorems
  deriving DecidableEq, Repr

/-- FileReader: header, completion flag and bytes left in the current
chunk (int in Go, hence Int here). -/
structure FRState where
  hdr : FileHeader
  done : Bool
  chunkRem : Int
  deriving DecidableEq, Repr

/-- Reader: sequencing state, the remaining decompressed input, and
the stored file reader / error of the last Next call. -/
structure ReaderState where
  ready : Bool
  closed : Bool
  input : List Nat
  fr : Option FRState
  err : Option ReadError
  deriving DecidableEq, Repr

/-- The payload-copy phase of FileReader.Read: bufio.Read on a
prefix of dst sized by the remaining chunk.  An empty request returns
immediately; reading at end of input reports EOF, which the method
converts to io.ErrUnexpectedEOF. -/
def FileReader.readChunkBytes (r : ReaderState) (fr : FRState) (dstLen : Nat) :
    (List Nat × Option ReadError) × ReaderState × FRState :=
  let n := min fr.chunkRem.toNat dstLen
  if n = 0 then
    if r.input = [] then (([], some .unexpectedEOF), r, fr)
    else (([], none), r, fr)
  else if r.input = [] then (([], some .unexpectedEOF), r, fr)
  else
    let got := r.input.take n
    ((got, none), { r with input := r.input.drop n },
      { fr with chunkRem := fr.chunkRem - got.length })

/-- FileReader.Read: io.EOF once done; at a chunk boundary parse the
next length token (length zero is the logical end of the body and
re-arms the reader); then hand out at most the rest of the chunk. -/
def FileReader.read (r : ReaderState) (fr : FRState) (dstLen : Nat) :
    (List Nat × Option ReadError) × ReaderState × FRState :=
  if fr.done then (([], some .eof), r, fr)
  else if fr.chunkRem = 0 then
    match readString0 r.input with
    | none => (([], some .unexpectedEOF), { r with input := [] }, fr)
    | some (lstr, rest) =>
      let r1 := { r with input := rest }
      match atoi lstr with
      | none => (([], some .badChunkLength), r1, fr)
      | some l =>
        if l = 0 then (([], some .eof), { r1 with ready := true }, { fr with done := true })
        else if l < 0 then (([], some .negativeChunk), r1, fr)
        else FileReader.readChunkBytes r1 { fr with chunkRem := l } dstLen
  else FileReader.readChunkBytes r fr dstLen

/-- Reader.Next of the boolean-advance variant: clears the stored file
and error, refuses after completion or before the previous entry is
drained, parses the next header record, recognizes the sentinel
(checking nothing follows it), and eagerly checks directory bodies. -/
def Reader.next (r0 : ReaderState) : Bool × ReaderState :=
  let r := { r0 with fr := none, err := none }
  if r.closed then (false, r)
  else if r.ready = false then (false, { r with err := some .seqNext })
  else
    let r1 := { r with ready := false }
    match readString0 r1.input with
    | none => (false, { r1 with input := [], err := some .unexpectedEOF })
    | some (jd, rest) =>
      let r2 := { r1 with input := rest }
      match unmarshalFileHeader jd with
      | none => (false, { r2 with err := some .badJSON })
      | some hdr =>
        if hdr.path = ['\x00'] then
          let r3 := { r2 with closed := true }
          match r3.input with
          | _ :: rest2 =>
            (false, { r3 with input := rest2, err := some .excessData })
          | [] => (false, r3)
        else
          let fr0 : FRState := ⟨hdr, false, 0⟩
          if isDirMode hdr.mode then
            match FileReader.read r2 fr0 0 with
            | ((_, none), r4, _) => (false, { r4 with err := some .nonEmptyDir, fr := none })
            | ((_, some .eof), r4, fr1) => (true, { r4 with fr := some fr1 })
            | ((_, some e), r4, _) => (false, { r4 with err := some e, fr := none })
          else (true, { r2 with fr := some fr0 })

/-- NewReader: reads the plaintext stream header record, rejects
versions above fmtVersion = 0, and installs the decompressor for a
supported algorithm name (gzip or lz4; decomp stands for the external
codec applied to the remaining bytes). -/
def Reader.new (decomp : List Nat → List Nat) (src : List Nat) :
    Except ReadError ReaderState :=
  match readString0 src with
  | none => .error .eof
  | some (jd, rest) =>
    match unmarshalStreamHeader jd with
    | none => .error .badJSON
    | some hdr =>
      if hdr.version > 0 then .error .unsupportedVersion
      else if hdr.compression = [] then .ok ⟨true, false, rest, none, none⟩
      else if hdr.compression = "gzip".toList ∨ hdr.compression = "lz4".toList then
        .ok ⟨true, false, decomp rest, none, none⟩
      else .error .unsupportedAlgo

/-- Read driver for one entry body (io.ReadAll over the FileReader):
repeated Read calls with an ample buffer until the logical end (eof)
or an error.  Fuel exceeds the input length wherever it is used. -/
def drainFile : Nat → ReaderState → FRState → List Nat →
    List Nat × Option ReadError × ReaderState × FRState
  | 0, r, fr, acc => (acc, some .outOfFuel, r, fr)
  | fuel + 1, r, fr, acc =>
    match FileReader.read r fr (r.input.length + 1) with
    | ((got, none), r1, fr1) => drainFile fuel r1 fr1 (acc ++ got)
    | ((got, some .eof), r1, fr1) => (acc ++ got, none, r1, fr1)
    | ((got, some e), r1, fr1) => (acc ++ got, some e, r1, fr1)

/-- One produced entry as the Reader reports it: the parsed header and
the drained body bytes. -/
structure EntryOut where
  hdr : FileHeader
  body : List Nat
  deriving DecidableEq, Repr

/-- Read driver: loop Next / File / drain until Next returns false,
reporting the entries seen and the final Err value (none = clean
end). -/
def readEntries : Nat → ReaderState → List EntryOut →
    List EntryOut × Option ReadError
  | 0, _, acc => (acc, some .outOfFuel)
  | fuel + 1, r, acc =>
    match Reader.next r with
    | (true, r1) =>
      match r1.fr with
      | some fr =>
        match drainFile (r1.input.length + 1) r1 fr [] with
        | (body, none, r2, _) => readEntries fuel r2 (acc ++ [⟨fr.hdr, body⟩])
        | (body, some e, _, _) => (acc ++ [⟨fr.hdr, body⟩], some e)
      | none => (acc, some .outOfFuel)
    | (false, r1) => (acc, r1.err)

/-- NewReader plus the full read loop over a byte source. -/
def readStream (decomp : List Nat → List Nat) (src : List Nat) :
    Except ReadError (List EntryOut × Option ReadError) :=
  match Reader.new decomp src with
  | .error e => .error e
  | .ok r => .ok (readEntries (r.input.length + 2) r [])

/-- One entry to write: path, directory flag, permission word, owner
names, and the body as the byte slices of successive Write calls
(files only; directories carry no body). -/
structure EntrySpec where
  path : List Char
  isDir : Bool
  mode : Nat
  user : List Char
  group : List Char
  body : List (List Nat)
  deriving Repr

/-- Successive fileWriter.Write calls of one entry body. -/
def writeBodyLoop : WriterState → FileWriterD → List (List Nat) →
    Option WriteError × WriterState × FileWriterD
  | w, fw, [] => (none, w, fw)
  | w, fw, d :: ds =>
    match FileWriterD.write w fw d with
    | (.error e, w1, fw1) => (some e, w1, fw1)
    | (.ok _, w1, fw1) => writeBodyLoop w1 fw1 ds

/-- Write one entry: Directory for the directory flag, otherwise File,
the body writes, and Close. -/
def writeEntry (w : WriterState) (e : EntrySpec) : Option WriteError × WriterState :=
  if e.isDir then Writer.directoryD w e.path ⟨e.mode, e.user, e.group⟩
  else
    let fw := Writer.fileD e.path ⟨e.mode, e.user, e.group⟩
    match writeBodyLoop w fw e.body with
    | (some err, w1, _) => (some err, w1)
    | (none, w1, fw1) =>
      match FileWriterD.close w1 fw1 with
      | (e?, w2, _) => (e?, w2)

/-- Write driver over a sequence of entries. -/
def writeEntriesLoop : WriterState → List EntrySpec → Option WriteError × WriterState
  | w, [] => (none, w)
  | w, e :: es =>
    match writeEntry w e with
    | (some err, w1) => (some err, w1)
    | (none, w1) => writeEntriesLoop w1 es

/-- NewWriter plus the full write loop and Close, returning the bytes
handed to the framing layer after the stream header. -/
def writeStream (entries : List EntrySpec) : Option WriteError × List Nat :=
  match writeEntriesLoop WriterState.init entries with
  | (some e, w) => (some e, w.out)
  | (none, w) =>
    match Writer.close w with
    | (e?, w1) => (e?, w1.out)

/-- The bytes reaching the destination for a configuration: plaintext
stream header record, then the framed bytes through the compressor
(comp is the external codec; the identity when compression is off). -/
def assembled (compression : List Char) (comp : List Nat → List Nat)
    (framed : List Nat) : List Nat :=
  streamHeaderRecord compression ++ (if compression = [] then framed else comp framed)

/-- The header Writer.Directory / Writer.File build for an entry:
directories get the directory bit forced on. -/
def entryHeader (e : EntrySpec) : FileHeader :=
  ⟨e.path, e.user, e.group, if e.isDir then e.mode ||| modeDir else e.mode⟩

/-- The wire bytes of one entry: header record, one chunk record per
nonzero-length Write call, and the zero-length terminator chunk. -/
def entryBytes (e : EntrySpec) : List Nat :=
  headerRecord (entryHeader e)
  ++ (if e.isDir then []
      else ((e.body.filter (fun d => d ≠ [])).map chunkRecord).flatten)
  ++ chunkRecord []

/-- A well-formed entry request: no 0x00 byte in the path and a
permission word below the directory bit (Go callers pass the
Perm-masked FileMode here). -/
def EntrySpec.ok (e : EntrySpec) : Prop :=
  e.path.contains '\x00' = false ∧ e.mode < modeDir

/-- The entry the Reader reports back for a written entry. -/
def entryOut (e : EntrySpec) : EntryOut :=
  ⟨entryHeader e, if e.isDir then [] else e.body.flatten⟩

/-! ## Basic facts about the byte-level primitives -/

theorem char_toNat_valid (c : Char) :
    c.toNat < 0xD800 ∨ (0xE000 ≤ c.toNat ∧ c.toNat < 0x110000) := by
  have h := c.valid
  unfold Char.toNat
  rcases h with h | h
  · exact Or.inl h
  · exact Or.inr ⟨h.1, h.2⟩

theorem natDigitsCore_append (n : Nat) (acc : List Nat) :
    natDigitsCore n acc = natDigits n ++ acc := by
  induction n using Nat.strong_induction_on generalizing acc with
  | _ n ih =>
    by_cases h : n < 10
    · rw [natDigits]
      conv_lhs => rw [natDigitsCore]
      conv_rhs => rw [natDigitsCore]
      simp [h]
    · rw [natDigits]
      conv_lhs => rw [natDigitsCore]
      conv_rhs => rw [natDigitsCore]
      simp only [h, dite_false]
      rw [ih (n / 10) (Nat.div_lt_self (by omega) (by omega)),
        ih (n / 10) (Nat.div_lt_self (by omega) (by omega))]
      simp

theorem natDigits_expand (n : Nat) :
    natDigits n = if n < 10 then [48 + n] else natDigits (n / 10) ++ [48 + n % 10] := by
  by_cases h : n < 10
  · rw [natDigits]
    conv_lhs => rw [natDigitsCore]
    simp [h]
  · rw [natDigits]
    conv_lhs => rw [natDigitsCore]
    simp only [h, dite_false, if_neg h]
    exact natDigitsCore_append _ _

theorem natDigits_digits (n : Nat) : ∀ b ∈ natDigits n, 48 ≤ b ∧ b ≤ 57 := by
  induction n using Nat.strong_induction_on with
  | _ n ih =>
    rw [natDigits_expand]
    by_cases h : n < 10
    · simp only [h, if_true]
      intro b hb
      simp only [List.mem_singleton] at hb
      omega
    · simp only [h, if_false]
      intro b hb
      rcases List.mem_append.mp hb with hb | hb
      · exact ih (n / 10) (Nat.div_lt_self (by omega) (by omega)) b hb
      · simp only [List.mem_singleton] at hb
        have := Nat.mod_lt n (show 0 < 10 by omega)
        omega

theorem natDigits_ne_nil (n : Nat) : natDigits n ≠ [] := by
  rw [natDigits_expand]
  by_cases h : n < 10 <;> simp [h]

theorem zero_not_mem_natDigits (n : Nat) : 0 ∉ natDigits n := by
  intro h
  have := natDigits_digits n 0 h
  omega

theorem readDigits_natDigits (n : Nat) (acc : Nat) (rest : List Nat) :
    readDigits (natDigits n ++ rest) acc =
      readDigits rest (acc * 10 ^ (natDigits n).length + n) := by
  induction n using Nat.strong_induction_on generalizing acc rest with
  | _ n ih =>
    rw [natDigits_expand]
    by_cases h : n < 10
    · simp only [if_pos h, List.cons_append, readDigits]
      have hd : isDigit (48 + n) = true := by
        simp only [isDigit, Bool.and_eq_true, decide_eq_true_eq]
        omega
      simp only [hd, if_true, List.length_singleton, pow_one]
      congr 1
      omega
    · simp only [if_neg h, List.append_assoc, List.cons_append, List.nil_append]
      rw [ih (n / 10) (Nat.div_lt_self (by omega) (by omega)) acc ((48 + n % 10) :: rest)]
      simp only [readDigits]
      have hd : isDigit (48 + n % 10) = true := by
        simp only [isDigit, Bool.and_eq_true, decide_eq_true_eq]
        have := Nat.mod_lt n (show 0 < 10 by omega)
        omega
      simp only [hd, if_true]
      congr 1
      have h1 : 48 + n % 10 - 48 = n % 10 := by omega
      have h2 : (natDigits (n / 10) ++ [48 + n % 10]).length
          = (natDigits (n / 10)).length + 1 := by simp
      rw [h1, h2, pow_succ]
      have h3 : (acc * 10 ^ (natDigits (n / 10)).length + n / 10) * 10 + n % 10
          = acc * (10 ^ (natDigits (n / 10)).length * 10) + (n / 10 * 10 + n % 10) := by
        ring
      rw [h3]
      have h4 : n / 10 * 10 + n % 10 = n := by omega
      rw [h4]

theorem readDigits_stop (b : Nat) (rest : List Nat) (acc : Nat)
    (h : isDigit b = false) : readDigits (b :: rest) acc = (acc, b :: rest) := by
  simp [readDigits, h]

theorem atoiDigits_natDigits (n : Nat) : atoiDigits (natDigits n) = some n := by
  obtain ⟨b, t, hbt⟩ : ∃ b t, natDigits n = b :: t := by
    cases hd : natDigits n with
    | nil => exact absurd hd (natDigits_ne_nil n)
    | cons b t => exact ⟨b, t, rfl⟩
  have hb : 48 ≤ b ∧ b ≤ 57 := natDigits_digits n b (by rw [hbt]; simp)
  have hrd : readDigits (natDigits n) 0 = (n, []) := by
    have h0 := readDigits_natDigits n 0 []
    simpa [readDigits] using h0
  rw [hbt] at hrd ⊢
  simp only [atoiDigits]
  have hd : isDigit b = true := by
    simp only [isDigit, Bool.and_eq_true, decide_eq_true_eq]
    omega
  simp [hd, hrd]

theorem atoi_natDigits (n : Nat) : atoi (natDigits n) = some (Int.ofNat n) := by
  obtain ⟨b, t, hbt⟩ : ∃ b t, natDigits n = b :: t := by
    cases hd : natDigits n with
    | nil => exact absurd hd (natDigits_ne_nil n)
    | cons b t => exact ⟨b, t, rfl⟩
  have hb : 48 ≤ b ∧ b ≤ 57 := natDigits_digits n b (by rw [hbt]; simp)
  have had := atoiDigits_natDigits n
  rw [hbt] at had ⊢
  simp only [atoi]
  have h43 : ¬(b = 43) := by omega
  have h45 : ¬(b = 45) := by omega
  simp [h43, h45, had]

theorem readString0_zeroFree (s : List Nat) (h : 0 ∉ s) : readString0 s = none := by
  induction s with
  | nil => rfl
  | cons b t ih =>
    have hb : b ≠ 0 := by intro hb; exact h (by simp [hb])
    have ht : 0 ∉ t := fun hm => h (by simp [hm])
    rw [readString0]
    · rw [ih ht]
    · omega

theorem readString0_append (a rest : List Nat) (h : 0 ∉ a) :
    readString0 (a ++ 0 :: rest) = some (a, rest) := by
  induction a with
  | nil => rfl
  | cons b t ih =>
    have hb : b ≠ 0 := by intro hb; exact h (by simp [hb])
    have ht : 0 ∉ t := fun hm => h (by simp [hm])
    simp only [List.cons_append]
    rw [readString0]
    · rw [ih ht]
    · omega

theorem skipWS_nonWS (b : Nat) (t : List Nat) (h : isWS b = false) :
    skipWS (b :: t) = b :: t := by
  simp [skipWS, List.dropWhile_cons, h]

/-! ## The JSON string codec round-trips -/

theorem char_eq_of_toNat (c d : Char) (h : c.toNat = d.toNat) : c = d := by
  rw [← Char.ofNat_toNat c, ← Char.ofNat_toNat d, h]

theorem hexVal_hexDig (n : Nat) (h : n < 16) : hexVal (hexDig n) = some n := by
  unfold hexVal hexDig
  by_cases h10 : n < 10
  · rw [if_pos h10]
    rw [if_pos (by omega)]
    simp
  · rw [if_neg h10]
    rw [if_neg (by omega), if_pos (by omega)]
    simp

theorem parseStrChars_u4 (a b c d v fuel : Nat) (tail : List Nat)
    (hhex : hex4 a b c d = some v) (hv : v < 0xD800) :
    parseStrChars (fuel + 1) (92 :: 117 :: a :: b :: c :: d :: tail)
      = (parseStrChars fuel tail).map (fun p => (Char.ofNat v :: p.1, p.2)) := by
  rw [parseStrChars.eq_def]
  simp only [if_true, if_false]
  rw [hhex]
  simp only
  rw [if_pos (Or.inl hv)]
  norm_num

theorem parseStrChars_ascii (b fuel : Nat) (tail : List Nat)
    (h1 : 0x20 ≤ b) (h2 : b < 0x80) (h34 : b ≠ 34) (h92 : b ≠ 92) :
    parseStrChars (fuel + 1) (b :: tail)
      = (parseStrChars fuel tail).map (fun p => (Char.ofNat b :: p.1, p.2)) := by
  rw [parseStrChars.eq_def]
  simp only
  rw [if_neg h34, if_neg h92]
  rw [if_neg (by omega : ¬(b < 32)), if_pos h2]

theorem parseStrChars_utf8_2 (n fuel : Nat) (tail : List Nat)
    (h1 : 0x80 ≤ n) (h2 : n < 0x800) :
    parseStrChars (fuel + 1) (utf8Bytes n ++ tail)
      = (parseStrChars fuel tail).map (fun p => (Char.ofNat n :: p.1, p.2)) := by
  rw [utf8Bytes, if_neg (by omega), if_pos h2]
  have hdiv : 2 ≤ n / 64 ∧ n / 64 < 32 := by omega
  rw [List.cons_append, List.cons_append, List.nil_append]
  rw [parseStrChars.eq_def]
  simp only
  rw [if_neg (by omega : ¬(192 + n / 64 = 34)), if_neg (by omega : ¬(192 + n / 64 = 92)),
    if_neg (by omega : ¬(192 + n / 64 < 32)), if_neg (by omega : ¬(192 + n / 64 < 128)),
    if_neg (by omega : ¬(192 + n / 64 < 192)), if_pos (by omega : 192 + n / 64 < 224)]
  have hcont : isCont (128 + n % 64) = true := by
    simp only [isCont, Bool.and_eq_true, decide_eq_true_eq]
    omega
  rw [if_pos hcont]
  have harg : (192 + n / 64 - 192) * 64 + (128 + n % 64 - 128) = n := by omega
  rw [harg]

theorem parseStrChars_utf8_3 (n fuel : Nat) (tail : List Nat)
    (h1 : 0x800 ≤ n) (h2 : n < 0x10000) :
    parseStrChars (fuel + 1) (utf8Bytes n ++ tail)
      = (parseStrChars fuel tail).map (fun p => (Char.ofNat n :: p.1, p.2)) := by
  rw [utf8Bytes, if_neg (by omega), if_neg (by omega), if_pos h2]
  have hdiv : n / 4096 < 16 := by omega
  rw [List.cons_append, List.cons_append, List.cons_append, List.nil_append]
  rw [parseStrChars.eq_def]
  simp only
  rw [if_neg (by omega : ¬(224 + n / 4096 = 34)), if_neg (by omega : ¬(224 + n / 4096 = 92)),
    if_neg (by omega : ¬(224 + n / 4096 < 32)), if_neg (by omega : ¬(224 + n / 4096 < 128)),
    if_neg (by omega : ¬(224 + n / 4096 < 192)), if_neg (by omega : ¬(224 + n / 4096 < 224)),
    if_pos (by omega : 224 + n / 4096 < 240)]
  have hc1 : isCont (128 + n / 64 % 64) = true := by
    simp only [isCont, Bool.and_eq_true, decide_eq_true_eq]
    omega
  have hc2 : isCont (128 + n % 64) = true := by
    simp only [isCont, Bool.and_eq_true, decide_eq_true_eq]
    omega
  rw [if_pos ⟨hc1, hc2⟩]
  have harg : ((224 + n / 4096 - 224) * 64 + (128 + n / 64 % 64 - 128)) * 64
      + (128 + n % 64 - 128) = n := by omega
  rw [harg]

theorem parseStrChars_utf8_4 (n fuel : Nat) (tail : List Nat)
    (h1 : 0x10000 ≤ n) (h2 : n < 0x110000) :
    parseStrChars (fuel + 1) (utf8Bytes n ++ tail)
      = (parseStrChars fuel tail).map (fun p => (Char.ofNat n :: p.1, p.2)) := by
  rw [utf8Bytes, if_neg (by omega), if_neg (by omega), if_neg (by omega)]
  have hdiv : n / 262144 < 5 := by omega
  rw [List.cons_append, List.cons_append, List.cons_append, List.cons_append,
    List.nil_append]
  rw [parseStrChars.eq_def]
  simp only
  rw [if_neg (by omega : ¬(240 + n / 262144 = 34)), if_neg (by omega : ¬(240 + n / 262144 = 92)),
    if_neg (by omega : ¬(240 + n / 262144 < 32)), if_neg (by omega : ¬(240 + n / 262144 < 128)),
    if_neg (by omega : ¬(240 + n / 262144 < 192)), if_neg (by omega : ¬(240 + n / 262144 < 224)),
    if_neg (by omega : ¬(240 + n / 262144 < 240))]
  have hc1 : isCont (128 + n / 4096 % 64) = true := by
    simp only [isCont, Bool.and_eq_true, decide_eq_true_eq]
    omega
  have hc2 : isCont (128 + n / 64 % 64) = true := by
    simp only [isCont, Bool.and_eq_true, decide_eq_true_eq]
    omega
  have hc3 : isCont (128 + n % 64) = true := by
    simp only [isCont, Bool.and_eq_true, decide_eq_true_eq]
    omega
  rw [if_pos ⟨by omega, hc1, hc2, hc3⟩]
  have harg : (((240 + n / 262144 - 240) * 64 + (128 + n / 4096 % 64 - 128)) * 64
      + (128 + n / 64 % 64 - 128)) * 64 + (128 + n % 64 - 128) = n := by omega
  rw [harg]

theorem parseStrChars_escapeChar (c : Char) (fuel : Nat) (tail : List Nat) :
    parseStrChars (fuel + 1) (escapeChar c ++ tail)
      = (parseStrChars fuel tail).map (fun p => (c :: p.1, p.2)) := by
  unfold escapeChar
  split_ifs with hq hbs hn hr ht hctl h2028
  · subst hq
    simp only [List.cons_append, List.nil_append]
    rw [parseStrChars.eq_def]
    norm_num
  · subst hbs
    simp only [List.cons_append, List.nil_append]
    rw [parseStrChars.eq_def]
    norm_num
  · subst hn
    simp only [List.cons_append, List.nil_append]
    rw [parseStrChars.eq_def]
    norm_num
  · subst hr
    simp only [List.cons_append, List.nil_append]
    rw [parseStrChars.eq_def]
    norm_num
  · subst ht
    simp only [List.cons_append, List.nil_append]
    rw [parseStrChars.eq_def]
    norm_num
  · have hlt : c.toNat < 256 := by
      rcases hctl with h | h | h | h
      · omega
      · subst h; decide
      · subst h; decide
      · subst h; decide
    have hhex : hex4 48 48 (hexDig (c.toNat / 16)) (hexDig (c.toNat % 16))
        = some c.toNat := by
      unfold hex4
      rw [show hexVal 48 = some 0 from by decide,
        hexVal_hexDig _ (by omega), hexVal_hexDig _ (by omega)]
      simp only
      congr 1
      omega
    simp only [List.cons_append, List.nil_append]
    rw [parseStrChars_u4 _ _ _ _ _ _ _ hhex (by omega)]
    rw [Char.ofNat_toNat]
  · have hhex : hex4 50 48 50 (hexDig (c.toNat % 16)) = some c.toNat := by
      unfold hex4
      rw [show hexVal 50 = some 2 from by decide,
        show hexVal 48 = some 0 from by decide,
        hexVal_hexDig _ (by omega)]
      simp only
      congr 1
      omega
    simp only [List.cons_append, List.nil_append]
    rw [parseStrChars_u4 _ _ _ _ _ _ _ hhex (by omega)]
    rw [Char.ofNat_toNat]
  · have h32 : 0x20 ≤ c.toNat := by
      push_neg at hctl
      omega
    have h34 : c.toNat ≠ 34 := fun h => hq (char_eq_of_toNat c '"' (by simpa using h))
    have h92 : c.toNat ≠ 92 := fun h => hbs (char_eq_of_toNat c '\\' (by simpa using h))
    have hval := char_toNat_valid c
    by_cases ha : c.toNat < 0x80
    · rw [show utf8Bytes c.toNat = [c.toNat] from by rw [utf8Bytes, if_pos ha]]
      simp only [List.cons_append, List.nil_append]
      rw [parseStrChars_ascii _ _ _ h32 ha h34 h92, Char.ofNat_toNat]
    · by_cases hb : c.toNat < 0x800
      · rw [parseStrChars_utf8_2 _ _ _ (by omega) hb, Char.ofNat_toNat]
      · by_cases hc : c.toNat < 0x10000
        · rw [parseStrChars_utf8_3 _ _ _ (by omega) hc, Char.ofNat_toNat]
        · rw [parseStrChars_utf8_4 _ _ _ (by omega) (by omega), Char.ofNat_toNat]

theorem parseStrChars_encode (s : List Char) (fuel : Nat) (rest : List Nat)
    (hfuel : s.length ≤ fuel) :
    parseStrChars (fuel + 1) (s.flatMap escapeChar ++ 34 :: rest) = some (s, rest) := by
  induction s generalizing fuel with
  | nil =>
    rw [List.flatMap_nil, List.nil_append]
    rw [parseStrChars.eq_def]
    norm_num
  | cons c cs ih =>
    rw [List.flatMap_cons, List.append_assoc]
    obtain ⟨fuel1, rfl⟩ : ∃ fuel1, fuel = fuel1 + 1 := by
      cases fuel with
      | zero => simp at hfuel
      | succ k => exact ⟨k, rfl⟩
    rw [parseStrChars_escapeChar, ih fuel1 (by simpa using hfuel)]
    rfl

theorem escapeChar_ne_nil (c : Char) : escapeChar c ≠ [] := by
  unfold escapeChar
  split_ifs with hq hbs hn hr ht hctl h2028
  all_goals (try simp)
  unfold utf8Bytes
  split_ifs <;> simp

theorem length_le_flatMap_escape (s : List Char) :
    s.length ≤ (s.flatMap escapeChar).length := by
  induction s with
  | nil => simp
  | cons c cs ih =>
    rw [List.flatMap_cons, List.length_append, List.length_cons]
    have : 1 ≤ (escapeChar c).length := by
      cases he : escapeChar c with
      | nil => exact absurd he (escapeChar_ne_nil c)
      | cons x xs => simp
    omega

theorem parseJSONString_encode (s : List Char) (rest : List Nat) :
    parseJSONString (encodeJSONString s ++ rest) = some (s, rest) := by
  rw [encodeJSONString]
  simp only [List.cons_append, List.append_assoc, List.singleton_append, List.nil_append]
  rw [parseJSONString]
  obtain ⟨extra, hx⟩ : ∃ extra, (s.flatMap escapeChar ++ 34 :: rest).length
      = s.length + extra + 1 := by
    refine ⟨(s.flatMap escapeChar).length - s.length + rest.length, ?_⟩
    have := length_le_flatMap_escape s
    simp only [List.length_append, List.length_cons]
    omega
  rw [hx]
  have : s.length ≤ s.length + extra := by omega
  rw [show s.length + extra + 1 + 1 = (s.length + extra + 1) + 1 from rfl]
  exact parseStrChars_encode s (s.length + extra + 1) rest (by omega)

/-! ## Zero-freeness of encoded records -/

theorem hexDig_ge (n : Nat) : 48 ≤ hexDig n := by
  unfold hexDig
  split_ifs <;> omega

theorem zero_not_mem_escapeChar (c : Char) : 0 ∉ escapeChar c := by
  unfold escapeChar
  have hd1 := hexDig_ge (c.toNat / 16)
  have hd2 := hexDig_ge (c.toNat % 16)
  split_ifs with hq hbs hn hr ht hctl h2028
  · simp
  · simp
  · simp
  · simp
  · simp
  · intro hm
    simp only [List.mem_cons, List.not_mem_nil, or_false] at hm
    rcases hm with h | h | h | h | h | h <;> omega
  · intro hm
    simp only [List.mem_cons, List.not_mem_nil, or_false] at hm
    rcases hm with h | h | h | h | h | h <;> omega
  · have h32 : 0x20 ≤ c.toNat := by
      push_neg at hctl
      omega
    unfold utf8Bytes
    split_ifs with u1 u2 u3
    · intro hm
      simp only [List.mem_cons, List.not_mem_nil, or_false] at hm
      omega
    · intro hm
      simp only [List.mem_cons, List.not_mem_nil, or_false] at hm
      rcases hm with h | h <;> omega
    · intro hm
      simp only [List.mem_cons, List.not_mem_nil, or_false] at hm
      rcases hm with h | h | h <;> omega
    · intro hm
      simp only [List.mem_cons, List.not_mem_nil, or_false] at hm
      rcases hm with h | h | h | h <;> omega

theorem zero_not_mem_encodeJSONString (s : List Char) : 0 ∉ encodeJSONString s := by
  intro hm
  rw [encodeJSONString] at hm
  rcases List.mem_cons.mp hm with h | hm
  · exact absurd h (by decide)
  rcases List.mem_append.mp hm with hm | h
  · obtain ⟨c, _, hc⟩ := List.mem_flatMap.mp hm
    exact zero_not_mem_escapeChar c hc
  · exact absurd h (by decide)

theorem zero_not_mem_jsonMember (key : String) (v : List Nat) (hv : 0 ∉ v) :
    0 ∉ jsonMember key v := by
  unfold jsonMember
  intro hm
  rcases List.mem_append.mp hm with hm | hm
  rcases List.mem_append.mp hm with hm | hm
  · exact zero_not_mem_encodeJSONString key.toList hm
  · exact absurd hm (by decide)
  · exact hv hm

theorem zero_not_mem_joinComma (ms : List (List Nat)) (h : ∀ m ∈ ms, 0 ∉ m) :
    0 ∉ joinComma ms := by
  induction ms with
  | nil => simp [joinComma]
  | cons m ms ih =>
    cases ms with
    | nil =>
      rw [joinComma]
      exact h m (by simp)
    | cons m2 ms2 =>
      rw [joinComma]
      · intro hm
        rcases List.mem_append.mp hm with hm | hm
        rcases List.mem_append.mp hm with hm | hm
        · exact h m (by simp) hm
        · exact absurd hm (by decide)
        · exact ih (fun x hxm => h x (by simp [hxm])) hm
      · simp

theorem fileHeaderMembers_zero_free (h : FileHeader) :
    ∀ m ∈ fileHeaderMembers h, 0 ∉ m := by
  intro m hm
  unfold fileHeaderMembers at hm
  rcases List.mem_append.mp hm with hm | hm
  rcases List.mem_append.mp hm with hm | hm
  rcases List.mem_append.mp hm with hm | hm
  · rcases List.mem_cons.mp hm with rfl | hF
    · exact zero_not_mem_jsonMember _ _ (zero_not_mem_encodeJSONString _)
    · exact absurd hF (List.not_mem_nil m)
  · split_ifs at hm
    · exact absurd hm (List.not_mem_nil m)
    · rcases List.mem_cons.mp hm with rfl | hF
      · exact zero_not_mem_jsonMember _ _ (zero_not_mem_encodeJSONString _)
      · exact absurd hF (List.not_mem_nil m)
  · split_ifs at hm
    · exact absurd hm (List.not_mem_nil m)
    · rcases List.mem_cons.mp hm with rfl | hF
      · exact zero_not_mem_jsonMember _ _ (zero_not_mem_encodeJSONString _)
      · exact absurd hF (List.not_mem_nil m)
  · split_ifs at hm
    · exact absurd hm (List.not_mem_nil m)
    · rcases List.mem_cons.mp hm with rfl | hF
      · exact zero_not_mem_jsonMember _ _ (zero_not_mem_natDigits _)
      · exact absurd hF (List.not_mem_nil m)

theorem zero_not_mem_encodeFileHeader (h : FileHeader) : 0 ∉ encodeFileHeader h := by
  unfold encodeFileHeader
  intro hm
  rcases List.mem_append.mp hm with hm | hm
  rcases List.mem_append.mp hm with hm | hm
  · exact absurd hm (by decide)
  · exact zero_not_mem_joinComma _ (fileHeaderMembers_zero_free h) hm
  · exact absurd hm (by decide)

theorem streamHeaderMembers_zero_free (compression : List Char) :
    ∀ m ∈ streamHeaderMembers compression, 0 ∉ m := by
  intro m hm
  unfold streamHeaderMembers at hm
  rcases List.mem_append.mp hm with hm | hm
  · rcases List.mem_cons.mp hm with rfl | hF
    · exact zero_not_mem_jsonMember _ _ (zero_not_mem_natDigits _)
    · exact absurd hF (List.not_mem_nil m)
  · split_ifs at hm
    · exact absurd hm (List.not_mem_nil m)
    · rcases List.mem_cons.mp hm with rfl | hF
      · exact zero_not_mem_jsonMember _ _ (zero_not_mem_encodeJSONString _)
      · exact absurd hF (List.not_mem_nil m)

theorem zero_not_mem_encodeStreamHeader (compression : List Char) :
    0 ∉ encodeStreamHeader compression := by
  unfold encodeStreamHeader
  intro hm
  rcases List.mem_append.mp hm with hm | hm
  rcases List.mem_append.mp hm with hm | hm
  · exact absurd hm (by decide)
  · exact zero_not_mem_joinComma _ (streamHeaderMembers_zero_free compression) hm
  · exact absurd hm (by decide)

/-! ## Number and value parse lemmas -/

theorem readDigits_natDigits_stop (n : Nat) (rest : List Nat)
    (hrest : ∀ b ∈ rest.head?, isDigit b = false) :
    readDigits (natDigits n ++ rest) 0 = (n, rest) := by
  rw [readDigits_natDigits]
  simp only [Nat.zero_mul, Nat.zero_add]
  cases rest with
  | nil => rfl
  | cons b t =>
    have hb : isDigit b = false := hrest b (by simp)
    exact readDigits_stop b t n hb

theorem parseJSONNumber_natDigits (n : Nat) (rest : List Nat)
    (hrest : ∀ b ∈ rest.head?, isDigit b = false) :
    parseJSONNumber (natDigits n ++ rest) = some (Int.ofNat n, rest) := by
  obtain ⟨b, t, hbt⟩ : ∃ b t, natDigits n = b :: t := by
    cases hd : natDigits n with
    | nil => exact absurd hd (natDigits_ne_nil n)
    | cons b t => exact ⟨b, t, rfl⟩
  have hb : 48 ≤ b ∧ b ≤ 57 := natDigits_digits n b (by rw [hbt]; simp)
  have hrd := readDigits_natDigits_stop n rest hrest
  rw [hbt] at hrd ⊢
  rw [List.cons_append]
  rw [parseJSONNumber.eq_def]
  simp only
  have hd : isDigit b = true := by
    simp only [isDigit, Bool.and_eq_true, decide_eq_true_eq]
    omega
  rw [if_neg (by omega : ¬(b = 45)), if_pos hd]
  rw [← List.cons_append, hrd]

theorem parseJVal_str (sval : List Char) (rest : List Nat) :
    parseJVal (encodeJSONString sval ++ rest) = some (JVal.str sval, rest) := by
  have he : encodeJSONString sval ++ rest
      = 34 :: (sval.flatMap escapeChar ++ [34] ++ rest) := by
    simp [encodeJSONString]
  rw [he, parseJVal, if_pos rfl, ← he, parseJSONString_encode]
  rfl

theorem parseJVal_num (n : Nat) (rest : List Nat)
    (hrest : ∀ b ∈ rest.head?, isDigit b = false) :
    parseJVal (natDigits n ++ rest) = some (JVal.num (Int.ofNat n), rest) := by
  obtain ⟨b, t, hbt⟩ : ∃ b t, natDigits n = b :: t := by
    cases hd : natDigits n with
    | nil => exact absurd hd (natDigits_ne_nil n)
    | cons b t => exact ⟨b, t, rfl⟩
  have hb : 48 ≤ b ∧ b ≤ 57 := natDigits_digits n b (by rw [hbt]; simp)
  have hn := parseJSONNumber_natDigits n rest hrest
  rw [hbt] at hn ⊢
  rw [List.cons_append] at hn ⊢
  rw [parseJVal, if_neg (by omega : ¬(b = 34)), hn]
  rfl

/-! ## Object member parsing -/

theorem skipWS_encodeJSONString (s : List Char) (rest : List Nat) :
    skipWS (encodeJSONString s ++ rest) = encodeJSONString s ++ rest := by
  have he : encodeJSONString s ++ rest
      = 34 :: (s.flatMap escapeChar ++ [34] ++ rest) := by
    simp [encodeJSONString]
  rw [he, skipWS_nonWS _ _ (by decide), ← he]

theorem parseMembersLoop_step_cons {α : Type} (assign : α → List Char → JVal → Option α)
    (fuel : Nat) (h h2 : α) (key : String) (vb : List Nat) (v : JVal)
    (tail : List Nat)
    (hvb : ∃ b t, vb = b :: t ∧ isWS b = false)
    (hval : parseJVal (vb ++ 44 :: tail) = some (v, 44 :: tail))
    (hassign : assign h key.toList v = some h2) :
    parseMembersLoop assign (fuel + 1) h (jsonMember key vb ++ 44 :: tail)
      = parseMembersLoop assign fuel h2 tail := by
  have hshape : jsonMember key vb ++ 44 :: tail
      = encodeJSONString key.toList ++ (58 :: (vb ++ 44 :: tail)) := by
    simp [jsonMember, List.append_assoc]
  rw [hshape]
  rw [parseMembersLoop]
  rw [skipWS_encodeJSONString]
  rw [parseJSONString_encode]
  simp only
  rw [skipWS_nonWS _ _ (by decide)]
  simp only
  obtain ⟨b, t, hvbe, hws⟩ := hvb
  have hsk : skipWS (vb ++ 44 :: tail) = vb ++ 44 :: tail := by
    rw [hvbe, List.cons_append, skipWS_nonWS _ _ hws]
  rw [hsk, hval]
  simp only
  rw [hassign]
  simp only
  rw [skipWS_nonWS _ _ (by decide)]

theorem parseMembersLoop_step_last {α : Type} (assign : α → List Char → JVal → Option α)
    (fuel : Nat) (h h2 : α) (key : String) (vb : List Nat) (v : JVal)
    (tail : List Nat)
    (hvb : ∃ b t, vb = b :: t ∧ isWS b = false)
    (hval : parseJVal (vb ++ 125 :: tail) = some (v, 125 :: tail))
    (hassign : assign h key.toList v = some h2) :
    parseMembersLoop assign (fuel + 1) h (jsonMember key vb ++ 125 :: tail)
      = some (h2, tail) := by
  have hshape : jsonMember key vb ++ 125 :: tail
      = encodeJSONString key.toList ++ (58 :: (vb ++ 125 :: tail)) := by
    simp [jsonMember, List.append_assoc]
  rw [hshape]
  rw [parseMembersLoop]
  rw [skipWS_encodeJSONString]
  rw [parseJSONString_encode]
  simp only
  rw [skipWS_nonWS _ _ (by decide)]
  simp only
  obtain ⟨b, t, hvbe, hws⟩ := hvb
  have hsk : skipWS (vb ++ 125 :: tail) = vb ++ 125 :: tail := by
    rw [hvbe, List.cons_append, skipWS_nonWS _ _ hws]
  rw [hsk, hval]
  simp only
  rw [hassign]
  simp only
  rw [skipWS_nonWS _ _ (by decide)]
/-! ## Whole-object parsing of encoded headers -/

/-- The struct fill json.Unmarshal performs, member by member. -/
def foldAssign {α : Type} (assign : α → List Char → JVal → Option α) :
    List (String × List Nat × JVal) → α → Option α
  | [], h => some h
  | m :: ms, h =>
    match assign h m.1.toList m.2.2 with
    | none => none
    | some h2 => foldAssign assign ms h2

theorem joinComma_cons_ex (x : List Nat) (l : List (List Nat)) :
    ∃ r, joinComma (x :: l) = x ++ r := by
  cases l with
  | nil =>
    refine ⟨[], ?_⟩
    rw [joinComma]
    simp
  | cons y l2 =>
    refine ⟨[44] ++ joinComma (y :: l2), ?_⟩
    rw [joinComma]
    · simp
    · simp

theorem joinComma_length_ge (ms : List (List Nat)) (h : ∀ m ∈ ms, m ≠ []) :
    ms.length ≤ (joinComma ms).length + 1 := by
  induction ms with
  | nil => simp
  | cons m ms ih =>
    cases ms with
    | nil => simp
    | cons m2 ms2 =>
      rw [joinComma]
      · have h1 : ms2.length + 1 ≤ (joinComma (m2 :: ms2)).length + 1 :=
          ih (fun x hx => h x (by simp [hx]))
        have h2 : 1 ≤ m.length := by
          have := h m (by simp)
          cases m with
          | nil => simp at this
          | cons a t => simp
        simp only [List.length_append, List.length_cons]
        simp only [List.length_cons] at h1
        omega
      · simp

theorem parseMembersLoop_join {α : Type} (assign : α → List Char → JVal → Option α)
    (ms : List (String × List Nat × JVal)) (h0 hfin : α) (rest : List Nat) (fuel : Nat)
    (hne : ms ≠ [])
    (hfuel : ms.length ≤ fuel + 1)
    (hvb : ∀ m ∈ ms, ∃ b t, m.2.1 = b :: t ∧ isWS b = false)
    (hvals : ∀ m ∈ ms, ∀ rest2 : List Nat, (∀ b ∈ rest2.head?, isDigit b = false) →
        parseJVal (m.2.1 ++ rest2) = some (m.2.2, rest2))
    (hfold : foldAssign assign ms h0 = some hfin) :
    parseMembersLoop assign (fuel + 1) h0
      (joinComma (ms.map (fun m => jsonMember m.1 m.2.1)) ++ 125 :: rest)
      = some (hfin, rest) := by
  induction ms generalizing h0 fuel with
  | nil => exact absurd rfl hne
  | cons m ms ih =>
    rw [foldAssign] at hfold
    cases hassign : assign h0 m.1.toList m.2.2 with
    | none =>
      rw [hassign] at hfold
      simp at hfold
    | some h2 =>
      rw [hassign] at hfold
      simp only at hfold
      cases ms with
      | nil =>
        simp only [List.map_cons, List.map_nil]
        rw [joinComma]
        rw [foldAssign] at hfold
        have hfin2 : h2 = hfin := Option.some.inj hfold
        subst hfin2
        exact parseMembersLoop_step_last assign fuel h0 h2 m.1 m.2.1 m.2.2 rest
          (hvb m (by simp))
          (hvals m (by simp) (125 :: rest) (by intro b hb; simp at hb; subst hb; decide))
          hassign
      | cons m2 ms2 =>
        simp only [List.map_cons] at ih ⊢
        rw [joinComma]
        · obtain ⟨fuel2, rfl⟩ : ∃ fuel2, fuel = fuel2 + 1 := by
            cases fuel with
            | zero => simp at hfuel
            | succ k => exact ⟨k, rfl⟩
          have hsh : jsonMember m.1 m.2.1 ++ [44]
                ++ joinComma (jsonMember m2.1 m2.2.1 :: ms2.map (fun m => jsonMember m.1 m.2.1))
                ++ 125 :: rest
              = jsonMember m.1 m.2.1 ++ 44 ::
                (joinComma (jsonMember m2.1 m2.2.1 :: ms2.map (fun m => jsonMember m.1 m.2.1))
                  ++ 125 :: rest) := by
            simp [List.append_assoc]
          rw [hsh]
          rw [parseMembersLoop_step_cons assign (fuel2 + 1) h0 h2 m.1 m.2.1 m.2.2 _
            (hvb m (by simp))
            (hvals m (by simp) _ (by intro b hb; simp at hb; subst hb; decide))
            hassign]
          exact ih h2 fuel2 (by simp) (by simp at hfuel ⊢; omega)
            (fun x hx => hvb x (by simp [hx]))
            (fun x hx => hvals x (by simp [hx]))
            hfold
        · simp

theorem parseJSONObject_encode {α : Type} (assign : α → List Char → JVal → Option α)
    (ms : List (String × List Nat × JVal)) (h0 hfin : α) (rest : List Nat)
    (hne : ms ≠ [])
    (hvb : ∀ m ∈ ms, ∃ b t, m.2.1 = b :: t ∧ isWS b = false)
    (hvals : ∀ m ∈ ms, ∀ rest2 : List Nat, (∀ b ∈ rest2.head?, isDigit b = false) →
        parseJVal (m.2.1 ++ rest2) = some (m.2.2, rest2))
    (hfold : foldAssign assign ms h0 = some hfin) :
    parseJSONObject assign h0
      ([123] ++ joinComma (ms.map (fun m => jsonMember m.1 m.2.1)) ++ 125 :: rest)
      = some (hfin, rest) := by
  obtain ⟨m, ms2, rfl⟩ : ∃ m ms2, ms = m :: ms2 := by
    cases ms with
    | nil => exact absurd rfl hne
    | cons m ms2 => exact ⟨m, ms2, rfl⟩
  obtain ⟨r, hr⟩ := joinComma_cons_ex (jsonMember m.1 m.2.1)
    (ms2.map (fun x => jsonMember x.1 x.2.1))
  have hmem : jsonMember m.1 m.2.1 ++ r
      = 34 :: (m.1.toList.flatMap escapeChar ++ [34] ++ [58] ++ m.2.1 ++ r) := by
    simp [jsonMember, encodeJSONString, List.append_assoc]
  have hJ : joinComma ((m :: ms2).map (fun x => jsonMember x.1 x.2.1))
      = 34 :: (m.1.toList.flatMap escapeChar ++ [34] ++ [58] ++ m.2.1 ++ r) := by
    rw [List.map_cons, hr, hmem]
  rw [parseJSONObject]
  have hs : [123] ++ joinComma ((m :: ms2).map (fun x => jsonMember x.1 x.2.1)) ++ 125 :: rest
      = 123 :: (joinComma ((m :: ms2).map (fun x => jsonMember x.1 x.2.1)) ++ 125 :: rest) := by
    simp
  rw [hs]
  rw [skipWS_nonWS _ _ (by decide)]
  simp only
  have hsk1 : skipWS (joinComma ((m :: ms2).map (fun x => jsonMember x.1 x.2.1)) ++ 125 :: rest)
      = joinComma ((m :: ms2).map (fun x => jsonMember x.1 x.2.1)) ++ 125 :: rest := by
    rw [hJ]
    rw [List.cons_append, skipWS_nonWS _ _ (by decide)]
  split
  · rename_i s2 heq
    rw [hsk1, hJ, List.cons_append] at heq
    simp at heq
  · rename_i hne2
    have hlen : (m :: ms2).length
        ≤ (joinComma ((m :: ms2).map (fun x => jsonMember x.1 x.2.1)) ++ 125 :: rest).length
          + 1 := by
      have h1 : ((m :: ms2).map (fun x => jsonMember x.1 x.2.1)).length
          ≤ (joinComma ((m :: ms2).map (fun x => jsonMember x.1 x.2.1))).length + 1 := by
        apply joinComma_length_ge
        intro x hx
        simp only [List.mem_map] at hx
        obtain ⟨y, _, rfl⟩ := hx
        simp [jsonMember, encodeJSONString]
      simp only [List.length_map, List.length_cons] at h1
      simp only [List.length_append, List.length_cons]
      omega
    exact parseMembersLoop_join assign (m :: ms2) h0 hfin rest
      ((joinComma ((m :: ms2).map (fun x => jsonMember x.1 x.2.1)) ++ 125 :: rest).length)
      hne hlen hvb hvals hfold

theorem isWS_of_digit (b : Nat) (hb : 48 ≤ b) : isWS b = false := by
  simp only [isWS, Bool.or_eq_false_iff, decide_eq_false_iff_not]
  omega

theorem natDigits_head_shape (n : Nat) :
    ∃ b t, natDigits n = b :: t ∧ isWS b = false := by
  obtain ⟨b, t, hbt⟩ : ∃ b t, natDigits n = b :: t := by
    cases hd : natDigits n with
    | nil => exact absurd hd (natDigits_ne_nil n)
    | cons b t => exact ⟨b, t, rfl⟩
  have hb : 48 ≤ b ∧ b ≤ 57 := natDigits_digits n b (by rw [hbt]; simp)
  exact ⟨b, t, hbt, isWS_of_digit b hb.1⟩

theorem encodeJSONString_head_shape (str : List Char) :
    ∃ b t, encodeJSONString str = b :: t ∧ isWS b = false := by
  refine ⟨34, str.flatMap escapeChar ++ [34], ?_, by decide⟩
  simp [encodeJSONString]

theorem foldAssign_nil {α : Type} (assign : α → List Char → JVal → Option α) (h : α) :
    foldAssign assign [] h = some h :=
  rfl

theorem foldAssign_cons {α : Type} (assign : α → List Char → JVal → Option α)
    (m : String × List Nat × JVal) (ms : List (String × List Nat × JVal)) (h h2 : α)
    (hstep : assign h m.1.toList m.2.2 = some h2) :
    foldAssign assign (m :: ms) h = foldAssign assign ms h2 := by
  rw [foldAssign, hstep]

theorem unmarshalFileHeader_encode (h : FileHeader) (hmode : h.mode < 4294967296) :
    unmarshalFileHeader (encodeFileHeader h ++ [10]) = some h := by
  obtain ⟨p, u, g, mo⟩ := h
  simp only at hmode
  have ha1 : assignFileField FileHeader.zero "path".toList (JVal.str p)
      = some ⟨p, [], [], 0⟩ := by
    unfold assignFileField
    rw [if_pos rfl]
    rfl
  have ha2 : ∀ hh : FileHeader, assignFileField hh "user".toList (JVal.str u)
      = some { hh with user := u } := by
    intro hh
    unfold assignFileField
    rw [if_neg (by decide), if_pos rfl]
  have ha3 : ∀ hh : FileHeader, assignFileField hh "group".toList (JVal.str g)
      = some { hh with group := g } := by
    intro hh
    unfold assignFileField
    rw [if_neg (by decide), if_neg (by decide), if_pos rfl]
  have ha4 : ∀ hh : FileHeader, assignFileField hh "mode".toList
      (JVal.num (Int.ofNat mo)) = some { hh with mode := mo } := by
    intro hh
    unfold assignFileField
    rw [if_neg (by decide), if_neg (by decide), if_neg (by decide), if_pos rfl]
    simp only
    rw [if_pos hmode]
  have hvbs : ∀ m ∈ (("path", encodeJSONString p, JVal.str p)
      :: ((if u = [] then [] else [("user", encodeJSONString u, JVal.str u)])
      ++ (if g = [] then [] else [("group", encodeJSONString g, JVal.str g)])
      ++ (if mo = 0 then [] else [("mode", natDigits mo, JVal.num (Int.ofNat mo))]))),
      ∃ b t, m.2.1 = b :: t ∧ isWS b = false := by
    intro m hm
    rcases List.mem_cons.mp hm with rfl | hm
    · exact encodeJSONString_head_shape p
    rcases List.mem_append.mp hm with hm | hm
    rcases List.mem_append.mp hm with hm | hm
    · split_ifs at hm
      · exact absurd hm (List.not_mem_nil m)
      · rcases List.mem_cons.mp hm with rfl | hF
        · exact encodeJSONString_head_shape u
        · exact absurd hF (List.not_mem_nil m)
    · split_ifs at hm
      · exact absurd hm (List.not_mem_nil m)
      · rcases List.mem_cons.mp hm with rfl | hF
        · exact encodeJSONString_head_shape g
        · exact absurd hF (List.not_mem_nil m)
    · split_ifs at hm
      · exact absurd hm (List.not_mem_nil m)
      · rcases List.mem_cons.mp hm with rfl | hF
        · exact natDigits_head_shape mo
        · exact absurd hF (List.not_mem_nil m)
  have hvals : ∀ m ∈ (("path", encodeJSONString p, JVal.str p)
      :: ((if u = [] then [] else [("user", encodeJSONString u, JVal.str u)])
      ++ (if g = [] then [] else [("group", encodeJSONString g, JVal.str g)])
      ++ (if mo = 0 then [] else [("mode", natDigits mo, JVal.num (Int.ofNat mo))]))),
      ∀ rest2 : List Nat, (∀ b ∈ rest2.head?, isDigit b = false) →
        parseJVal (m.2.1 ++ rest2) = some (m.2.2, rest2) := by
    intro m hm rest2 hrest2
    rcases List.mem_cons.mp hm with rfl | hm
    · exact parseJVal_str p rest2
    rcases List.mem_append.mp hm with hm | hm
    rcases List.mem_append.mp hm with hm | hm
    · split_ifs at hm
      · exact absurd hm (List.not_mem_nil m)
      · rcases List.mem_cons.mp hm with rfl | hF
        · exact parseJVal_str u rest2
        · exact absurd hF (List.not_mem_nil m)
    · split_ifs at hm
      · exact absurd hm (List.not_mem_nil m)
      · rcases List.mem_cons.mp hm with rfl | hF
        · exact parseJVal_str g rest2
        · exact absurd hF (List.not_mem_nil m)
    · split_ifs at hm
      · exact absurd hm (List.not_mem_nil m)
      · rcases List.mem_cons.mp hm with rfl | hF
        · exact parseJVal_num mo rest2 hrest2
        · exact absurd hF (List.not_mem_nil m)
  have hfold : foldAssign assignFileField (("path", encodeJSONString p, JVal.str p)
      :: ((if u = [] then [] else [("user", encodeJSONString u, JVal.str u)])
      ++ (if g = [] then [] else [("group", encodeJSONString g, JVal.str g)])
      ++ (if mo = 0 then [] else [("mode", natDigits mo, JVal.num (Int.ofNat mo))])))
      FileHeader.zero = some ⟨p, u, g, mo⟩ := by
    by_cases hu : u = []
    · by_cases hg : g = []
      · by_cases hmo : mo = 0
        · simp only [hu, hg, hmo, eq_self_iff_true, ite_true, List.nil_append,
            List.append_nil]
          rw [foldAssign_cons _ _ _ _ _ ha1, foldAssign_nil]
        · simp only [hu, hg, hmo, eq_self_iff_true, ite_true, ite_false,
            List.nil_append, List.append_nil, List.singleton_append]
          rw [foldAssign_cons _ _ _ _ _ ha1, foldAssign_cons _ _ _ _ _ (ha4 _),
            foldAssign_nil]
      · by_cases hmo : mo = 0
        · simp only [hu, hg, hmo, eq_self_iff_true, ite_true, ite_false,
            List.nil_append, List.append_nil, List.singleton_append]
          rw [foldAssign_cons _ _ _ _ _ ha1, foldAssign_cons _ _ _ _ _ (ha3 _),
            foldAssign_nil]
        · simp only [hu, hg, hmo, eq_self_iff_true, ite_true, ite_false,
            List.nil_append, List.append_nil, List.singleton_append, List.cons_append]
          rw [foldAssign_cons _ _ _ _ _ ha1, foldAssign_cons _ _ _ _ _ (ha3 _),
            foldAssign_cons _ _ _ _ _ (ha4 _), foldAssign_nil]
    · by_cases hg : g = []
      · by_cases hmo : mo = 0
        · simp only [hu, hg, hmo, eq_self_iff_true, ite_true, ite_false,
            List.nil_append, List.append_nil, List.singleton_append]
          rw [foldAssign_cons _ _ _ _ _ ha1, foldAssign_cons _ _ _ _ _ (ha2 _),
            foldAssign_nil]
        · simp only [hu, hg, hmo, eq_self_iff_true, ite_true, ite_false,
            List.nil_append, List.append_nil, List.singleton_append, List.cons_append]
          rw [foldAssign_cons _ _ _ _ _ ha1, foldAssign_cons _ _ _ _ _ (ha2 _),
            foldAssign_cons _ _ _ _ _ (ha4 _), foldAssign_nil]
      · by_cases hmo : mo = 0
        · simp only [hu, hg, hmo, eq_self_iff_true, ite_true, ite_false,
            List.nil_append, List.append_nil, List.singleton_append, List.cons_append]
          rw [foldAssign_cons _ _ _ _ _ ha1, foldAssign_cons _ _ _ _ _ (ha2 _),
            foldAssign_cons _ _ _ _ _ (ha3 _), foldAssign_nil]
        · simp only [hu, hg, hmo, eq_self_iff_true, ite_true, ite_false,
            List.nil_append, List.append_nil, List.singleton_append, List.cons_append]
          rw [foldAssign_cons _ _ _ _ _ ha1, foldAssign_cons _ _ _ _ _ (ha2 _),
            foldAssign_cons _ _ _ _ _ (ha3 _), foldAssign_cons _ _ _ _ _ (ha4 _),
            foldAssign_nil]
  have hobj := parseJSONObject_encode assignFileField
    (("path", encodeJSONString p, JVal.str p)
      :: ((if u = [] then [] else [("user", encodeJSONString u, JVal.str u)])
      ++ (if g = [] then [] else [("group", encodeJSONString g, JVal.str g)])
      ++ (if mo = 0 then [] else [("mode", natDigits mo, JVal.num (Int.ofNat mo))])))
    FileHeader.zero ⟨p, u, g, mo⟩ [10] (by simp) hvbs hvals hfold
  have hshape : encodeFileHeader ⟨p, u, g, mo⟩ ++ [10]
      = [123] ++ joinComma ((("path", encodeJSONString p, JVal.str p)
        :: ((if u = [] then [] else [("user", encodeJSONString u, JVal.str u)])
        ++ (if g = [] then [] else [("group", encodeJSONString g, JVal.str g)])
        ++ (if mo = 0 then [] else [("mode", natDigits mo, JVal.num (Int.ofNat mo))]))).map
          (fun m => jsonMember m.1 m.2.1)) ++ 125 :: [10] := by
    have hmap : fileHeaderMembers ⟨p, u, g, mo⟩
        = (("path", encodeJSONString p, JVal.str p)
          :: ((if u = [] then [] else [("user", encodeJSONString u, JVal.str u)])
          ++ (if g = [] then [] else [("group", encodeJSONString g, JVal.str g)])
          ++ (if mo = 0 then [] else [("mode", natDigits mo, JVal.num (Int.ofNat mo))]))).map
            (fun m => jsonMember m.1 m.2.1) := by
      unfold fileHeaderMembers
      by_cases hu : u = [] <;> by_cases hg : g = [] <;> by_cases hmo : mo = 0 <;>
        simp [hu, hg, hmo]
    rw [encodeFileHeader]
    simp only at hmap
    rw [hmap]
    simp [List.append_assoc]
  rw [unmarshalFileHeader, hshape, hobj]
  simp only
  rw [if_pos (by decide : skipWS [10] = [])]

theorem unmarshalStreamHeader_encode (compression : List Char) :
    unmarshalStreamHeader (encodeStreamHeader compression ++ [10])
      = some ⟨0, compression⟩ := by
  have ha1 : assignStreamField StreamHeader.zero "version".toList (JVal.num (Int.ofNat 0))
      = some ⟨0, []⟩ := by
    unfold assignStreamField
    rw [if_pos rfl]
    rfl
  have ha2 : ∀ hh : StreamHeader, assignStreamField hh "compression".toList
      (JVal.str compression) = some { hh with compression := compression } := by
    intro hh
    unfold assignStreamField
    rw [if_neg (by decide), if_pos rfl]
  have hvbs : ∀ m ∈ (("version", natDigits 0, JVal.num (Int.ofNat 0))
      :: (if compression = [] then []
          else [("compression", encodeJSONString compression, JVal.str compression)])),
      ∃ b t, m.2.1 = b :: t ∧ isWS b = false := by
    intro m hm
    rcases List.mem_cons.mp hm with rfl | hm
    · exact natDigits_head_shape 0
    · split_ifs at hm
      · exact absurd hm (List.not_mem_nil m)
      · rcases List.mem_cons.mp hm with rfl | hF
        · exact encodeJSONString_head_shape compression
        · exact absurd hF (List.not_mem_nil m)
  have hvals : ∀ m ∈ (("version", natDigits 0, JVal.num (Int.ofNat 0))
      :: (if compression = [] then []
          else [("compression", encodeJSONString compression, JVal.str compression)])),
      ∀ rest2 : List Nat, (∀ b ∈ rest2.head?, isDigit b = false) →
        parseJVal (m.2.1 ++ rest2) = some (m.2.2, rest2) := by
    intro m hm rest2 hrest2
    rcases List.mem_cons.mp hm with rfl | hm
    · exact parseJVal_num 0 rest2 hrest2
    · split_ifs at hm
      · exact absurd hm (List.not_mem_nil m)
      · rcases List.mem_cons.mp hm with rfl | hF
        · exact parseJVal_str compression rest2
        · exact absurd hF (List.not_mem_nil m)
  have hfold : foldAssign assignStreamField (("version", natDigits 0, JVal.num (Int.ofNat 0))
      :: (if compression = [] then []
          else [("compression", encodeJSONString compression, JVal.str compression)]))
      StreamHeader.zero = some ⟨0, compression⟩ := by
    by_cases hc : compression = []
    · simp only [hc, eq_self_iff_true, ite_true]
      rw [foldAssign_cons _ _ _ _ _ ha1, foldAssign_nil]
    · simp only [hc, ite_false]
      rw [foldAssign_cons _ _ _ _ _ ha1, foldAssign_cons _ _ _ _ _ (ha2 _),
        foldAssign_nil]
  have hobj := parseJSONObject_encode assignStreamField
    (("version", natDigits 0, JVal.num (Int.ofNat 0))
      :: (if compression = [] then []
          else [("compression", encodeJSONString compression, JVal.str compression)]))
    StreamHeader.zero ⟨0, compression⟩ [10] (by simp) hvbs hvals hfold
  have hshape : encodeStreamHeader compression ++ [10]
      = [123] ++ joinComma ((("version", natDigits 0, JVal.num (Int.ofNat 0))
        :: (if compression = [] then []
            else [("compression", encodeJSONString compression, JVal.str compression)])).map
          (fun m => jsonMember m.1 m.2.1)) ++ 125 :: [10] := by
    have hmap : streamHeaderMembers compression
        = (("version", natDigits 0, JVal.num (Int.ofNat 0))
          :: (if compression = [] then []
              else [("compression", encodeJSONString compression, JVal.str compression)])).map
            (fun m => jsonMember m.1 m.2.1) := by
      unfold streamHeaderMembers
      by_cases hc : compression = [] <;> simp [hc]
    rw [encodeStreamHeader]
    simp only at hmap
    rw [hmap]
    simp [List.append_assoc]
  rw [unmarshalStreamHeader, hshape, hobj]
  simp only
  rw [if_pos (by decide : skipWS [10] = [])]

/-! ## Writer operation lemmas -/

theorem write_open (c : Nat) (out dat : List Nat) :
    Writer.write ⟨c, true, out, false⟩ c dat
      = (.ok dat.length, ⟨c, true, out ++ chunkRecord dat, false⟩) := by
  unfold Writer.write
  simp

theorem startFileD_open (c : Nat) (out : List Nat) (hdr : FileHeader)
    (hpath : hdr.path.contains '\x00' = false) :
    Writer.startFileD ⟨c, false, out, false⟩ hdr
      = (.ok (c + 1), ⟨c + 1, true, out ++ headerRecord hdr, false⟩) := by
  unfold Writer.startFileD
  simp [hpath]
  simpa using hpath

theorem fileWriterD_write_fresh_nil (c : Nat) (out : List Nat) (hdr : FileHeader)
    (hpath : hdr.path.contains '\x00' = false) :
    FileWriterD.write ⟨c, false, out, false⟩ ⟨0, hdr⟩ []
      = (.ok 0, ⟨c + 1, true, out ++ headerRecord hdr, false⟩, ⟨c + 1, hdr⟩) := by
  unfold FileWriterD.write
  rw [if_pos rfl, startFileD_open c out hdr hpath]
  rfl

theorem fileWriterD_write_fresh (c : Nat) (out : List Nat) (hdr : FileHeader)
    (hpath : hdr.path.contains '\x00' = false) (dat : List Nat) (hdat : dat ≠ []) :
    FileWriterD.write ⟨c, false, out, false⟩ ⟨0, hdr⟩ dat
      = (.ok dat.length,
         ⟨c + 1, true, out ++ headerRecord hdr ++ chunkRecord dat, false⟩,
         ⟨c + 1, hdr⟩) := by
  unfold FileWriterD.write
  rw [if_pos rfl, startFileD_open c out hdr hpath]
  simp only [hdat, ite_false]
  rw [write_open]

theorem fileWriterD_write_started_nil (c : Nat) (out : List Nat) (hdr : FileHeader)
    (hc : c ≠ 0) :
    FileWriterD.write ⟨c, true, out, false⟩ ⟨c, hdr⟩ []
      = (.ok 0, ⟨c, true, out, false⟩, ⟨c, hdr⟩) := by
  unfold FileWriterD.write
  rw [if_neg (by simpa using hc), if_pos rfl]

theorem fileWriterD_write_started (c : Nat) (out : List Nat) (hdr : FileHeader)
    (hc : c ≠ 0) (dat : List Nat) (hdat : dat ≠ []) :
    FileWriterD.write ⟨c, true, out, false⟩ ⟨c, hdr⟩ dat
      = (.ok dat.length, ⟨c, true, out ++ chunkRecord dat, false⟩, ⟨c, hdr⟩) := by
  unfold FileWriterD.write
  rw [if_neg (by simpa using hc), if_neg hdat, write_open]

theorem fileWriterD_close_fresh (c : Nat) (out : List Nat) (hdr : FileHeader)
    (hpath : hdr.path.contains '\x00' = false) :
    FileWriterD.close ⟨c, false, out, false⟩ ⟨0, hdr⟩
      = (none, ⟨c + 1, false, out ++ headerRecord hdr ++ chunkRecord [], false⟩,
         ⟨c + 1, hdr⟩) := by
  unfold FileWriterD.close
  rw [if_pos rfl, fileWriterD_write_fresh_nil c out hdr hpath]
  simp only
  rw [write_open]

theorem fileWriterD_close_started (c : Nat) (out : List Nat) (hdr : FileHeader)
    (hc : c ≠ 0) :
    FileWriterD.close ⟨c, true, out, false⟩ ⟨c, hdr⟩
      = (none, ⟨c, false, out ++ chunkRecord [], false⟩, ⟨c, hdr⟩) := by
  unfold FileWriterD.close
  rw [if_neg (by simpa using hc)]
  simp only
  rw [write_open]

theorem writeBodyLoop_started (c : Nat) (hc : c ≠ 0) (hdr : FileHeader)
    (ds : List (List Nat)) : ∀ out : List Nat,
    writeBodyLoop ⟨c, true, out, false⟩ ⟨c, hdr⟩ ds
      = (none, ⟨c, true,
          out ++ ((ds.filter (fun d => d ≠ [])).map chunkRecord).flatten, false⟩,
         ⟨c, hdr⟩) := by
  induction ds with
  | nil => intro out; simp [writeBodyLoop]
  | cons d ds ih =>
    intro out
    rw [writeBodyLoop]
    by_cases hd : d = []
    · subst hd
      rw [fileWriterD_write_started_nil c out hdr hc]
      simp only
      rw [ih out]
      simp
    · rw [fileWriterD_write_started c out hdr hc d hd]
      simp only
      rw [ih (out ++ chunkRecord d)]
      simp [hd, List.append_assoc]

theorem writeEntry_ok (e : EntrySpec) (he : e.ok) (c : Nat) (out : List Nat) :
    writeEntry ⟨c, false, out, false⟩ e
      = (none, ⟨c + 1, false, out ++ entryBytes e, false⟩) := by
  have hpath : (entryHeader e).path.contains '\x00' = false := he.1
  by_cases hdir : e.isDir
  · rw [writeEntry, if_pos hdir]
    unfold Writer.directoryD
    show (match FileWriterD.close ⟨c, false, out, false⟩
        ⟨0, ⟨e.path, e.user, e.group, e.mode ||| modeDir⟩⟩ with
      | (e?, w1, _) => (e?, w1)) = _
    have hh : (⟨e.path, e.user, e.group, e.mode ||| modeDir⟩ : FileHeader)
        = entryHeader e := by
      simp [entryHeader, hdir]
    rw [hh, fileWriterD_close_fresh c out (entryHeader e) hpath]
    simp only [entryBytes, hdir, ite_true, List.nil_append]
    simp [headerRecord, List.append_assoc]
  · rw [writeEntry, if_neg hdir]
    simp only
    have hh : (Writer.fileD e.path ⟨e.mode, e.user, e.group⟩).hdr = entryHeader e := by
      simp [Writer.fileD, entryHeader, hdir]
    cases hb : e.body with
    | nil =>
      rw [writeBodyLoop]
      simp only
      show (match FileWriterD.close ⟨c, false, out, false⟩
          (Writer.fileD e.path ⟨e.mode, e.user, e.group⟩) with
        | (e?, w2, _) => (e?, w2)) = _
      have hfw : Writer.fileD e.path ⟨e.mode, e.user, e.group⟩
          = ⟨0, entryHeader e⟩ := by
        simp [Writer.fileD, entryHeader, hdir]
      rw [hfw, fileWriterD_close_fresh c out (entryHeader e) hpath]
      simp [entryBytes, hdir, hb, List.append_assoc, headerRecord]
    | cons d ds =>
      have hfw : Writer.fileD e.path ⟨e.mode, e.user, e.group⟩
          = ⟨0, entryHeader e⟩ := by
        simp [Writer.fileD, entryHeader, hdir]
      rw [hfw, writeBodyLoop]
      by_cases hd : d = []
      · subst hd
        rw [fileWriterD_write_fresh_nil c out (entryHeader e) hpath]
        simp only
        rw [writeBodyLoop_started (c + 1) (by omega) (entryHeader e) ds]
        simp only
        rw [fileWriterD_close_started (c + 1) _ (entryHeader e) (by omega)]
        simp [entryBytes, hdir, hb, List.append_assoc]
      · rw [fileWriterD_write_fresh c out (entryHeader e) hpath d hd]
        simp only
        rw [writeBodyLoop_started (c + 1) (by omega) (entryHeader e) ds]
        simp only
        rw [fileWriterD_close_started (c + 1) _ (entryHeader e) (by omega)]
        simp only [entryBytes, hdir, ite_false, hb]
        rw [List.filter_cons_of_pos (by simpa using hd)]
        simp [List.append_assoc]

theorem close_clean (c : Nat) (out : List Nat) :
    Writer.close ⟨c, false, out, false⟩
      = (none, ⟨c, false, out ++ sentinelRecord, true⟩) := by
  unfold Writer.close
  rfl

theorem close_interrupted (c : Nat) (out : List Nat) :
    Writer.close ⟨c, true, out, false⟩
      = (some .writeInterrupted, ⟨c, true, out, true⟩) := by
  unfold Writer.close
  rfl

theorem writeEntriesLoop_ok (es : List EntrySpec) (hok : ∀ e ∈ es, e.ok) :
    ∀ (c : Nat) (out : List Nat),
    writeEntriesLoop ⟨c, false, out, false⟩ es
      = (none, ⟨c + es.length, false, out ++ (es.map entryBytes).flatten, false⟩) := by
  induction es with
  | nil => intro c out; simp [writeEntriesLoop]
  | cons e es ih =>
    intro c out
    rw [writeEntriesLoop]
    rw [writeEntry_ok e (hok e (by simp)) c out]
    simp only
    rw [ih (fun x hx => hok x (by simp [hx])) (c + 1) (out ++ entryBytes e)]
    simp only [List.map_cons, List.flatten_cons, List.length_cons, List.append_assoc]
    have : c + 1 + es.length = c + (es.length + 1) := by omega
    rw [this]

theorem writeStream_ok (es : List EntrySpec) (hok : ∀ e ∈ es, e.ok) :
    writeStream es = (none, (es.map entryBytes).flatten ++ sentinelRecord) := by
  unfold writeStream WriterState.init
  rw [writeEntriesLoop_ok es hok 0 []]
  simp only
  rw [close_clean]
  simp

/-! ## Reader operation lemmas -/

theorem read_done (r : ReaderState) (fr : FRState) (hdone : fr.done = true) (dstLen : Nat) :
    FileReader.read r fr dstLen = (([], some .eof), r, fr) := by
  unfold FileReader.read
  rw [if_pos hdone]

theorem read_no_delim (rd cl : Bool) (f : Option FRState) (er : Option ReadError)
    (inp : List Nat) (h0 : 0 ∉ inp) (hdr : FileHeader) (dstLen : Nat) :
    FileReader.read ⟨rd, cl, inp, f, er⟩ ⟨hdr, false, 0⟩ dstLen
      = (([], some .unexpectedEOF), ⟨rd, cl, [], f, er⟩, ⟨hdr, false, 0⟩) := by
  unfold FileReader.read
  rw [if_neg (by simp), if_pos rfl]
  simp only
  rw [readString0_zeroFree inp h0]

theorem read_term (rd cl : Bool) (f : Option FRState) (er : Option ReadError)
    (hdr : FileHeader) (tail : List Nat) (dstLen : Nat) :
    FileReader.read ⟨rd, cl, 48 :: 0 :: tail, f, er⟩ ⟨hdr, false, 0⟩ dstLen
      = (([], some .eof), ⟨true, cl, tail, f, er⟩, ⟨hdr, true, 0⟩) := by
  unfold FileReader.read
  rw [if_neg (by simp), if_pos rfl]
  simp only
  have hsh : (48 : Nat) :: 0 :: tail = [48] ++ 0 :: tail := rfl
  rw [hsh, readString0_append [48] tail (by decide)]
  simp only
  have hat : atoi [48] = some (Int.ofNat 0) := by decide
  rw [hat]
  simp only
  rw [if_pos (show Int.ofNat 0 = (0 : Int) from rfl)]

theorem read_chunk (rd cl : Bool) (f : Option FRState) (er : Option ReadError)
    (hdr : FileHeader) (c tail : List Nat) (hc : c ≠ []) (dstLen : Nat)
    (hdst : c.length ≤ dstLen) :
    FileReader.read ⟨rd, cl, chunkRecord c ++ tail, f, er⟩ ⟨hdr, false, 0⟩ dstLen
      = ((c, none), ⟨rd, cl, tail, f, er⟩, ⟨hdr, false, 0⟩) := by
  have hlen : 0 < c.length := List.length_pos.mpr hc
  unfold FileReader.read
  rw [if_neg (by simp), if_pos rfl]
  simp only
  have hrec : chunkRecord c ++ tail = natDigits c.length ++ 0 :: (c ++ tail) := by
    simp [chunkRecord, List.append_assoc]
  rw [hrec, readString0_append _ _ (zero_not_mem_natDigits c.length)]
  simp only
  rw [atoi_natDigits c.length]
  simp only
  rw [if_neg (show ¬(Int.ofNat c.length = 0) by
      simp only [Int.ofNat_eq_natCast]; omega),
    if_neg (show ¬(Int.ofNat c.length < 0) by
      simp only [Int.ofNat_eq_natCast]; omega)]
  unfold FileReader.readChunkBytes
  simp only [Int.ofNat_eq_natCast, Int.toNat_natCast]
  rw [Nat.min_eq_left hdst]
  rw [if_neg (by omega : ¬(c.length = 0)), if_neg (by simp [hc])]
  simp only [List.take_left, List.drop_left]
  have hrem : (c.length : Int) - (c.length : Int) = 0 := sub_self _
  rw [hrem]

theorem drainFile_success (cs : List (List Nat)) (hcs : ∀ c ∈ cs, c ≠ [])
    (hdr : FileHeader) :
    ∀ (fuel : Nat) (rd cl : Bool) (f : Option FRState) (er : Option ReadError)
      (rest acc : List Nat),
    cs.length + 1 ≤ fuel →
    drainFile fuel ⟨rd, cl, (cs.map chunkRecord).flatten ++ 48 :: 0 :: rest, f, er⟩
        ⟨hdr, false, 0⟩ acc
      = (acc ++ cs.flatten, none, ⟨true, cl, rest, f, er⟩, ⟨hdr, true, 0⟩) := by
  induction cs with
  | nil =>
    intro fuel rd cl f er rest acc hfuel
    obtain ⟨fuel, rfl⟩ : ∃ k, fuel = k + 1 := ⟨fuel - 1, by omega⟩
    rw [drainFile]
    simp only [List.map_nil, List.flatten_nil, List.nil_append]
    rw [read_term rd cl f er hdr rest _]
  | cons c cs ih =>
    intro fuel rd cl f er rest acc hfuel
    obtain ⟨fuel, rfl⟩ : ∃ k, fuel = k + 1 := ⟨fuel - 1, by omega⟩
    rw [drainFile]
    simp only [List.map_cons, List.flatten_cons, List.append_assoc]
    rw [read_chunk rd cl f er hdr c _ (hcs c (by simp)) _ (by
      simp only [List.length_cons, List.length_append, chunkRecord]
      omega)]
    simp only
    rw [← List.append_assoc]
    rw [ih (fun x hx => hcs x (by simp [hx])) fuel rd cl f er rest (acc ++ c)
      (by simp at hfuel ⊢; omega)]

theorem zero_not_mem_headerBody (h : FileHeader) :
    0 ∉ encodeFileHeader h ++ [10] := by
  intro hm
  rcases List.mem_append.mp hm with hm | hm
  · exact zero_not_mem_encodeFileHeader h hm
  · simp at hm

theorem readString0_headerRecord (h : FileHeader) (tail : List Nat) :
    readString0 (headerRecord h ++ tail) = some (encodeFileHeader h ++ [10], tail) := by
  have hsh : headerRecord h ++ tail = (encodeFileHeader h ++ [10]) ++ 0 :: tail := by
    simp [headerRecord, List.append_assoc]
  rw [hsh, readString0_append _ _ (zero_not_mem_headerBody h)]

theorem next_file (inp : List Nat) (hdr : FileHeader) (f : Option FRState)
    (er : Option ReadError) (hmode : hdr.mode < 4294967296)
    (hdir : isDirMode hdr.mode = false) (hpath : hdr.path ≠ ['\x00']) :
    Reader.next ⟨true, false, headerRecord hdr ++ inp, f, er⟩
      = (true, ⟨false, false, inp, some ⟨hdr, false, 0⟩, none⟩) := by
  unfold Reader.next
  rw [if_neg (by simp), if_neg (by simp)]
  simp only
  rw [readString0_headerRecord hdr inp]
  simp only
  rw [unmarshalFileHeader_encode hdr hmode]
  simp only
  rw [if_neg hpath, if_neg (by simp [hdir])]

theorem next_dir (inp : List Nat) (hdr : FileHeader) (f : Option FRState)
    (er : Option ReadError) (hmode : hdr.mode < 4294967296)
    (hdir : isDirMode hdr.mode = true) (hpath : hdr.path ≠ ['\x00']) :
    Reader.next ⟨true, false, headerRecord hdr ++ 48 :: 0 :: inp, f, er⟩
      = (true, ⟨true, false, inp, some ⟨hdr, true, 0⟩, none⟩) := by
  unfold Reader.next
  rw [if_neg (by simp), if_neg (by simp)]
  simp only
  rw [readString0_headerRecord hdr (48 :: 0 :: inp)]
  simp only
  rw [unmarshalFileHeader_encode hdr hmode]
  simp only
  rw [if_neg hpath, if_pos (by simp [hdir])]
  rw [read_term false false none none hdr inp 0]

theorem next_dir_trunc (t : List Nat) (h0 : 0 ∉ t) (hdr : FileHeader)
    (f : Option FRState) (er : Option ReadError) (hmode : hdr.mode < 4294967296)
    (hdir : isDirMode hdr.mode = true) (hpath : hdr.path ≠ ['\x00']) :
    Reader.next ⟨true, false, headerRecord hdr ++ t, f, er⟩
      = (false, ⟨false, false, [], none, some .unexpectedEOF⟩) := by
  unfold Reader.next
  rw [if_neg (by simp), if_neg (by simp)]
  simp only
  rw [readString0_headerRecord hdr t]
  simp only
  rw [unmarshalFileHeader_encode hdr hmode]
  simp only
  rw [if_neg hpath, if_pos (by simp [hdir])]
  rw [read_no_delim false false none none t h0 hdr 0]

theorem next_sentinel (f : Option FRState) (er : Option ReadError) :
    Reader.next ⟨true, false, sentinelRecord, f, er⟩
      = (false, ⟨false, true, [], none, none⟩) := by
  unfold Reader.next
  rw [if_neg (by simp), if_neg (by simp)]
  simp only
  have hsr : sentinelRecord = headerRecord sentinelHeader ++ [] := by
    simp [sentinelRecord]
  rw [hsr, readString0_headerRecord sentinelHeader []]
  simp only
  rw [unmarshalFileHeader_encode sentinelHeader (by decide)]
  simp only
  rw [if_pos (show sentinelHeader.path = ['\x00'] from rfl)]

theorem next_excess (b : Nat) (excess : List Nat) (f : Option FRState)
    (er : Option ReadError) :
    Reader.next ⟨true, false, sentinelRecord ++ b :: excess, f, er⟩
      = (false, ⟨false, true, excess, none, some .excessData⟩) := by
  unfold Reader.next
  rw [if_neg (by simp), if_neg (by simp)]
  simp only
  have hsr : sentinelRecord ++ b :: excess = headerRecord sentinelHeader ++ b :: excess := by
    simp [sentinelRecord]
  rw [hsr, readString0_headerRecord sentinelHeader (b :: excess)]
  simp only
  rw [unmarshalFileHeader_encode sentinelHeader (by decide)]
  simp only
  rw [if_pos (show sentinelHeader.path = ['\x00'] from rfl)]

theorem next_no_delim (inp : List Nat) (h0 : 0 ∉ inp) (f : Option FRState)
    (er : Option ReadError) :
    Reader.next ⟨true, false, inp, f, er⟩
      = (false, ⟨false, false, [], none, some .unexpectedEOF⟩) := by
  unfold Reader.next
  rw [if_neg (by simp), if_neg (by simp)]
  simp only
  rw [readString0_zeroFree inp h0]

theorem next_seq (inp : List Nat) (f : Option FRState) (er : Option ReadError) :
    Reader.next ⟨false, false, inp, f, er⟩
      = (false, ⟨false, false, inp, none, some .seqNext⟩) := by
  unfold Reader.next
  rw [if_neg (by simp), if_pos rfl]

theorem next_closed (rd : Bool) (inp : List Nat) (f : Option FRState)
    (er : Option ReadError) :
    Reader.next ⟨rd, true, inp, f, er⟩ = (false, ⟨rd, true, inp, none, none⟩) := by
  unfold Reader.next
  rw [if_pos rfl]

/-! ## Entry-level facts -/

theorem entryHeader_mode_lt (e : EntrySpec) (he : e.ok) :
    (entryHeader e).mode < 4294967296 := by
  have hm : e.mode < 2 ^ 31 := he.2
  unfold entryHeader
  by_cases hd : e.isDir
  · simp only [hd, ite_true]
    have h2 : e.mode ||| modeDir < 2 ^ 32 :=
      Nat.or_lt_two_pow (by omega) (by norm_num [modeDir])
    exact lt_of_lt_of_eq h2 (by norm_num)
  · simp only [hd, Bool.false_eq_true, ite_false]
    omega

theorem entryHeader_isDir (e : EntrySpec) (he : e.ok) :
    isDirMode (entryHeader e).mode = e.isDir := by
  have hm : e.mode < 2 ^ 31 := he.2
  unfold entryHeader isDirMode modeDir
  by_cases hd : e.isDir
  · simp only [hd, ite_true]
    rw [Nat.testBit_or]
    simp [show Nat.testBit 2147483648 31 = true by decide]
  · simp only [hd, Bool.false_eq_true, ite_false]
    exact Nat.testBit_lt_two_pow hm

theorem entryHeader_path_ne (e : EntrySpec) (he : e.ok) :
    (entryHeader e).path ≠ ['\x00'] := by
  intro h
  have hc := he.1
  rw [show (entryHeader e).path = e.path from rfl] at h
  rw [h] at hc
  exact absurd hc (by decide)

theorem flatten_filter (l : List (List Nat)) :
    (l.filter (fun d => d ≠ [])).flatten = l.flatten := by
  induction l with
  | nil => rfl
  | cons d ds ih =>
    by_cases hd : d = []
    · subst hd
      rw [List.filter_cons_of_neg (by simp)]
      simpa using ih
    · rw [List.filter_cons_of_pos (by simpa using hd)]
      simp only [List.flatten_cons]
      rw [ih]

theorem chunkRecord_length_pos (c : List Nat) : 0 < (chunkRecord c).length := by
  have h1 : 0 < (natDigits c.length).length := List.length_pos.mpr (natDigits_ne_nil _)
  simp only [chunkRecord, List.length_append, List.length_cons]
  omega

theorem chunkFlat_length_ge (cs : List (List Nat)) :
    cs.length ≤ ((cs.map chunkRecord).flatten).length := by
  induction cs with
  | nil => simp
  | cons c cs ih =>
    simp only [List.map_cons, List.flatten_cons, List.length_append, List.length_cons]
    have := chunkRecord_length_pos c
    omega

theorem entryBytes_length_pos (e : EntrySpec) : 0 < (entryBytes e).length := by
  simp only [entryBytes, headerRecord, List.length_append, List.length_cons]
  omega

theorem natDigits_zero : natDigits 0 = [48] := by
  rw [natDigits_expand]
  norm_num

theorem chunkRecord_nil : chunkRecord [] = [48, 0] := by
  simp [chunkRecord, natDigits_zero]

theorem drainFile_done (fuel : Nat) (hfuel : 1 ≤ fuel) (r : ReaderState) (fr : FRState)
    (hdone : fr.done = true) (acc : List Nat) :
    drainFile fuel r fr acc = (acc, none, r, fr) := by
  obtain ⟨fuel, rfl⟩ : ∃ k, fuel = k + 1 := ⟨fuel - 1, by omega⟩
  rw [drainFile, read_done r fr hdone]
  simp

theorem readEntries_ok (es : List EntrySpec) (hok : ∀ e ∈ es, e.ok) :
    ∀ (fuel : Nat) (f : Option FRState) (er : Option ReadError) (acc : List EntryOut),
    ((es.map entryBytes).flatten ++ sentinelRecord).length + 1 ≤ fuel →
    readEntries fuel ⟨true, false, (es.map entryBytes).flatten ++ sentinelRecord, f, er⟩ acc
      = (acc ++ es.map entryOut, none) := by
  induction es with
  | nil =>
    intro fuel f er acc hfuel
    obtain ⟨fuel, rfl⟩ : ∃ k, fuel = k + 1 := ⟨fuel - 1, by omega⟩
    rw [readEntries]
    simp only [List.map_nil, List.flatten_nil, List.nil_append]
    rw [next_sentinel f er]
    simp
  | cons e es ih =>
    intro fuel f er acc hfuel
    obtain ⟨fuel, rfl⟩ : ∃ k, fuel = k + 1 := ⟨fuel - 1, by omega⟩
    rw [readEntries]
    have hmode := entryHeader_mode_lt e (hok e (by simp))
    have hpath := entryHeader_path_ne e (hok e (by simp))
    have hdirEq := entryHeader_isDir e (hok e (by simp))
    by_cases hdir : e.isDir
    · have hsh : ((e :: es).map entryBytes).flatten ++ sentinelRecord
          = headerRecord (entryHeader e)
            ++ 48 :: 0 :: ((es.map entryBytes).flatten ++ sentinelRecord) := by
        simp only [List.map_cons, List.flatten_cons, List.append_assoc, entryBytes,
          hdir, ite_true, chunkRecord_nil]
        simp
      rw [hsh, next_dir _ (entryHeader e) f er hmode (by rw [hdirEq, hdir]) hpath]
      simp only
      rw [drainFile_done _ (by omega) _ _ rfl []]
      simp only
      have hih := ih (fun x hx => hok x (by simp [hx])) fuel
        (some ⟨entryHeader e, true, 0⟩) none
        (acc ++ [(⟨entryHeader e, []⟩ : EntryOut)]) (by
          simp only [List.map_cons, List.flatten_cons, List.length_append,
            List.length_cons] at hfuel
          have := entryBytes_length_pos e
          simp only [List.length_append]
          omega)
      rw [hih]
      have hout : (⟨entryHeader e, []⟩ : EntryOut) = entryOut e := by
        simp [entryOut, hdir]
      rw [hout, List.append_assoc]
      simp
    · have hsh : ((e :: es).map entryBytes).flatten ++ sentinelRecord
          = headerRecord (entryHeader e)
            ++ (((e.body.filter (fun d => d ≠ [])).map chunkRecord).flatten
                ++ 48 :: 0 :: ((es.map entryBytes).flatten ++ sentinelRecord)) := by
        simp only [List.map_cons, List.flatten_cons, List.append_assoc, entryBytes,
          hdir, Bool.false_eq_true, ite_false, chunkRecord_nil]
        simp
      rw [hsh, next_file _ (entryHeader e) f er hmode (by rw [hdirEq]; simp [hdir]) hpath]
      simp only
      rw [drainFile_success (e.body.filter (fun d => d ≠ []))
        (fun x hx => by simpa using (List.of_mem_filter hx)) (entryHeader e)
        _ false false (some ⟨entryHeader e, false, 0⟩) none
        ((es.map entryBytes).flatten ++ sentinelRecord) [] (by
          simp only [List.length_append, List.length_cons]
          have := chunkFlat_length_ge (e.body.filter (fun d => d ≠ []))
          omega)]
      simp only [List.nil_append]
      have hih := ih (fun x hx => hok x (by simp [hx])) fuel
        (some ⟨entryHeader e, false, 0⟩) none
        (acc ++ [(⟨entryHeader e, (e.body.filter (fun d => d ≠ [])).flatten⟩ : EntryOut)]) (by
          simp only [List.map_cons, List.flatten_cons, List.length_append,
            List.length_cons] at hfuel
          have := entryBytes_length_pos e
          simp only [List.length_append]
          omega)
      rw [hih]
      have hout : (⟨entryHeader e, (e.body.filter (fun d => d ≠ [])).flatten⟩ : EntryOut)
          = entryOut e := by
        unfold entryOut
        rw [if_neg hdir, flatten_filter]
      rw [hout, List.append_assoc]
      simp

theorem zero_not_mem_streamHeaderBody (compression : List Char) :
    0 ∉ encodeStreamHeader compression ++ [10] := by
  intro hm
  rcases List.mem_append.mp hm with hm | hm
  · exact zero_not_mem_encodeStreamHeader compression hm
  · simp at hm

theorem readString0_streamHeaderRecord (compression : List Char) (tail : List Nat) :
    readString0 (streamHeaderRecord compression ++ tail)
      = some (encodeStreamHeader compression ++ [10], tail) := by
  have hsh : streamHeaderRecord compression ++ tail
      = (encodeStreamHeader compression ++ [10]) ++ 0 :: tail := by
    simp [streamHeaderRecord, List.append_assoc]
  rw [hsh, readString0_append _ _ (zero_not_mem_streamHeaderBody compression)]

theorem readStream_ok (es : List EntrySpec) (hok : ∀ e ∈ es, e.ok)
    (compression : List Char)
    (hcomp : compression = [] ∨ compression = "gzip".toList ∨ compression = "lz4".toList)
    (comp decomp : List Nat → List Nat)
    (hinv : decomp (comp ((es.map entryBytes).flatten ++ sentinelRecord))
      = (es.map entryBytes).flatten ++ sentinelRecord) :
    readStream decomp
        (assembled compression comp ((es.map entryBytes).flatten ++ sentinelRecord))
      = .ok (es.map entryOut, none) := by
  unfold readStream Reader.new assembled
  rw [readString0_streamHeaderRecord compression _]
  simp only
  rw [unmarshalStreamHeader_encode compression]
  simp only
  rw [if_neg (by decide : ¬((0 : Int) > 0))]
  rcases hcomp with hc | hc
  · rw [if_pos hc, if_pos hc]
    simp only
    rw [readEntries_ok es hok _ none none [] (by omega)]
    simp
  · have hc0 : compression ≠ [] := by
      rcases hc with hc | hc <;> rw [hc] <;> decide
    rw [if_neg hc0, if_neg hc0, if_pos hc]
    simp only
    rw [hinv]
    rw [readEntries_ok es hok _ none none [] (by omega)]
    simp

/-! ## Truncation lemmas -/

theorem read_rem_exhausted (rd cl : Bool) (f : Option FRState) (er : Option ReadError)
    (hdr : FileHeader) (k : Nat) (hk : 0 < k) (dstLen : Nat) (hdl : 0 < dstLen) :
    FileReader.read ⟨rd, cl, [], f, er⟩ ⟨hdr, false, (k : Int)⟩ dstLen
      = (([], some .unexpectedEOF), ⟨rd, cl, [], f, er⟩, ⟨hdr, false, (k : Int)⟩) := by
  unfold FileReader.read
  rw [if_neg (by simp), if_neg (show ¬((k : Int) = 0) by omega)]
  unfold FileReader.readChunkBytes
  simp only [Int.toNat_natCast]
  rw [if_neg (show ¬(min k dstLen = 0) by omega), if_pos trivial]

theorem read_chunk_p0 (rd cl : Bool) (f : Option FRState) (er : Option ReadError)
    (hdr : FileHeader) (n : Nat) (hn : 0 < n) (dstLen : Nat) (hdl : 0 < dstLen) :
    FileReader.read ⟨rd, cl, natDigits n ++ [0], f, er⟩ ⟨hdr, false, 0⟩ dstLen
      = (([], some .unexpectedEOF), ⟨rd, cl, [], f, er⟩, ⟨hdr, false, Int.ofNat n⟩) := by
  unfold FileReader.read
  rw [if_neg (by simp), if_pos rfl]
  simp only
  have hsh : natDigits n ++ [0] = natDigits n ++ 0 :: ([] : List Nat) := rfl
  rw [hsh, readString0_append _ _ (zero_not_mem_natDigits n)]
  simp only
  rw [atoi_natDigits n]
  simp only
  rw [if_neg (show ¬(Int.ofNat n = 0) by
      simp only [Int.ofNat_eq_natCast]; omega),
    if_neg (show ¬(Int.ofNat n < 0) by
      simp only [Int.ofNat_eq_natCast]; omega)]
  unfold FileReader.readChunkBytes
  simp only [Int.ofNat_eq_natCast, Int.toNat_natCast]
  rw [if_neg (show ¬(min n dstLen = 0) by omega), if_pos trivial]

theorem read_chunk_mid (rd cl : Bool) (f : Option FRState) (er : Option ReadError)
    (hdr : FileHeader) (c : List Nat) (p : Nat) (hp : 0 < p) (hpc : p < c.length)
    (dstLen : Nat) (hdl : p < dstLen) :
    FileReader.read ⟨rd, cl, natDigits c.length ++ 0 :: c.take p, f, er⟩
        ⟨hdr, false, 0⟩ dstLen
      = ((c.take p, none), ⟨rd, cl, [], f, er⟩,
         ⟨hdr, false, ((c.length - p : Nat) : Int)⟩) := by
  unfold FileReader.read
  rw [if_neg (by simp), if_pos rfl]
  simp only
  rw [readString0_append _ _ (zero_not_mem_natDigits c.length)]
  simp only
  rw [atoi_natDigits c.length]
  simp only
  rw [if_neg (show ¬(Int.ofNat c.length = 0) by
      simp only [Int.ofNat_eq_natCast]; omega),
    if_neg (show ¬(Int.ofNat c.length < 0) by
      simp only [Int.ofNat_eq_natCast]; omega)]
  unfold FileReader.readChunkBytes
  simp only [Int.ofNat_eq_natCast, Int.toNat_natCast]
  have hmin : 0 < min c.length dstLen := by omega
  rw [if_neg (show ¬(min c.length dstLen = 0) by omega),
    if_neg (show ¬(c.take p = []) by
      intro h
      have := congrArg List.length h
      simp only [List.length_take, List.length_nil] at this
      omega)]
  have htk : (c.take p).take (min c.length dstLen) = c.take p := by
    apply List.take_of_length_le
    simp only [List.length_take]
    omega
  have hdp : (c.take p).drop (min c.length dstLen) = [] := by
    apply List.drop_eq_nil_of_le
    simp only [List.length_take]
    omega
  rw [htk, hdp]
  have hlen : ((c.take p).length : Int) = (p : Int) := by
    simp only [List.length_take]
    omega
  rw [hlen]
  have hrem : (c.length : Int) - (p : Int) = ((c.length - p : Nat) : Int) := by
    omega
  rw [hrem]

theorem drainFile_trunc (cs : List (List Nat)) (hcs : ∀ c ∈ cs, c ≠ []) (hdr : FileHeader) :
    ∀ (m fuel : Nat) (rd cl : Bool) (f : Option FRState) (er : Option ReadError)
      (acc : List Nat),
    m < ((cs.map chunkRecord).flatten ++ [48, 0]).length →
    m + 1 ≤ fuel →
    ∃ (bytes : List Nat) (r2 : ReaderState) (fr2 : FRState),
    drainFile fuel ⟨rd, cl, ((cs.map chunkRecord).flatten ++ [48, 0]).take m, f, er⟩
        ⟨hdr, false, 0⟩ acc
      = (bytes, some .unexpectedEOF, r2, fr2) := by
  induction cs with
  | nil =>
    intro m fuel rd cl f er acc hm hfuel
    obtain ⟨fuel, rfl⟩ : ∃ k, fuel = k + 1 := ⟨fuel - 1, by omega⟩
    simp only [List.map_nil, List.flatten_nil, List.nil_append, List.length_cons,
      List.length_nil] at hm ⊢
    interval_cases m
    · rw [show ([48, 0] : List Nat).take 0 = [] from rfl, drainFile,
        read_no_delim rd cl f er [] (by simp) hdr _]
      exact ⟨_, _, _, rfl⟩
    · rw [show ([48, 0] : List Nat).take 1 = [48] from rfl, drainFile,
        read_no_delim rd cl f er [48] (by decide) hdr _]
      exact ⟨_, _, _, rfl⟩
  | cons c cs ih =>
    intro m fuel rd cl f er acc hm hfuel
    obtain ⟨fuel, rfl⟩ : ∃ k, fuel = k + 1 := ⟨fuel - 1, by omega⟩
    have hcne : c ≠ [] := hcs c (by simp)
    have hclen : 0 < c.length := List.length_pos.mpr hcne
    have hL : (chunkRecord c).length = (natDigits c.length).length + 1 + c.length := by
      simp only [chunkRecord, List.length_append, List.length_cons, List.length_nil]
    have htot : ((c :: cs).map chunkRecord).flatten ++ [48, 0]
        = chunkRecord c ++ ((cs.map chunkRecord).flatten ++ [48, 0]) := by
      simp [List.append_assoc]
    rw [htot] at hm ⊢
    by_cases hmL : (chunkRecord c).length ≤ m
    · have hmsplit : m = (chunkRecord c).length + (m - (chunkRecord c).length) := by
        omega
      have htk : (chunkRecord c ++ ((cs.map chunkRecord).flatten ++ [48, 0])).take m
          = chunkRecord c ++ ((cs.map chunkRecord).flatten ++ [48, 0]).take
              (m - (chunkRecord c).length) := by
        conv_lhs => rw [hmsplit]
        rw [List.take_append]
      rw [htk, drainFile,
        read_chunk rd cl f er hdr c _ hcne _ (by
          simp only [List.length_append]
          omega)]
      simp only
      exact ih (fun x hx => hcs x (by simp [hx])) (m - (chunkRecord c).length) fuel
        rd cl f er (acc ++ c)
        (by simp only [List.length_append] at hm ⊢; omega)
        (by omega)
    · push_neg at hmL
      by_cases hmD : m ≤ (natDigits c.length).length
      · have htk : (chunkRecord c ++ ((cs.map chunkRecord).flatten ++ [48, 0])).take m
            = (natDigits c.length).take m := by
          have hsh : chunkRecord c ++ ((cs.map chunkRecord).flatten ++ [48, 0])
              = natDigits c.length ++ (0 :: (c ++ ((cs.map chunkRecord).flatten
                  ++ [48, 0]))) := by
            simp [chunkRecord, List.append_assoc]
          rw [hsh, List.take_append_of_le_length hmD]
        rw [htk, drainFile,
          read_no_delim rd cl f er _ (fun hmem =>
            zero_not_mem_natDigits c.length (List.take_subset m _ hmem)) hdr _]
        exact ⟨_, _, _, rfl⟩
      · push_neg at hmD
        have hplt : m - (natDigits c.length).length - 1 < c.length := by
          omega
        have htk : (chunkRecord c ++ ((cs.map chunkRecord).flatten ++ [48, 0])).take m
            = natDigits c.length ++ 0 :: c.take (m - (natDigits c.length).length - 1) := by
          have hsh : chunkRecord c ++ ((cs.map chunkRecord).flatten ++ [48, 0])
              = (natDigits c.length ++ [0]) ++ (c ++ ((cs.map chunkRecord).flatten
                  ++ [48, 0])) := by
            simp [chunkRecord, List.append_assoc]
          have hm2 : m = (natDigits c.length ++ [0]).length
              + (m - (natDigits c.length).length - 1) := by
            simp only [List.length_append, List.length_cons, List.length_nil]
            omega
          rw [hsh]
          conv_lhs => rw [hm2]
          rw [List.take_append, List.take_append_of_le_length (le_of_lt hplt)]
          simp [List.append_assoc]
        rw [htk, drainFile]
        by_cases hp0 : m - (natDigits c.length).length - 1 = 0
        · rw [hp0, show c.take 0 = [] from rfl]
          rw [show natDigits c.length ++ 0 :: ([] : List Nat)
              = natDigits c.length ++ [0] from rfl]
          rw [read_chunk_p0 rd cl f er hdr c.length hclen _ (by
            simp only [List.length_append]
            omega)]
          exact ⟨_, _, _, rfl⟩
        · rw [read_chunk_mid rd cl f er hdr c _ (by omega) hplt _ (by
            simp only [List.length_append, List.length_cons, List.length_take]
            omega)]
          simp only
          obtain ⟨fuel2, rfl⟩ : ∃ k, fuel = k + 1 := ⟨fuel - 1, by omega⟩
          rw [drainFile,
            read_rem_exhausted rd cl f er hdr _ (by omega) _ (by simp)]
          exact ⟨_, _, _, rfl⟩

theorem headerRecord_split (h : FileHeader) :
    headerRecord h = (encodeFileHeader h ++ [10]) ++ [0] := by
  simp [headerRecord, List.append_assoc]

theorem readEntries_trunc (es : List EntrySpec) (hok : ∀ e ∈ es, e.ok) :
    ∀ (m fuel : Nat) (f : Option FRState) (er : Option ReadError) (acc : List EntryOut),
    m < ((es.map entryBytes).flatten ++ sentinelRecord).length →
    m + 1 ≤ fuel →
    ∃ (acc2 : List EntryOut),
    readEntries fuel
        ⟨true, false, ((es.map entryBytes).flatten ++ sentinelRecord).take m, f, er⟩ acc
      = (acc2, some .unexpectedEOF) := by
  induction es with
  | nil =>
    intro m fuel f er acc hm hfuel
    obtain ⟨fuel, rfl⟩ : ∃ k, fuel = k + 1 := ⟨fuel - 1, by omega⟩
    simp only [List.map_nil, List.flatten_nil, List.nil_append] at hm ⊢
    have hmHB : m ≤ (encodeFileHeader sentinelHeader ++ [10]).length := by
      rw [show sentinelRecord = headerRecord sentinelHeader from rfl,
        headerRecord_split] at hm
      simp only [List.length_append, List.length_cons, List.length_nil] at hm
      simp only [List.length_append, List.length_cons, List.length_nil]
      omega
    have htk : sentinelRecord.take m
        = (encodeFileHeader sentinelHeader ++ [10]).take m := by
      rw [show sentinelRecord = headerRecord sentinelHeader from rfl,
        headerRecord_split, List.take_append_of_le_length hmHB]
    rw [htk, readEntries,
      next_no_delim _ (fun hmem =>
        zero_not_mem_headerBody sentinelHeader (List.take_subset m _ hmem)) f er]
    exact ⟨acc, rfl⟩
  | cons e es ih =>
    intro m fuel f er acc hm hfuel
    obtain ⟨fuel, rfl⟩ : ∃ k, fuel = k + 1 := ⟨fuel - 1, by omega⟩
    have hmode := entryHeader_mode_lt e (hok e (by simp))
    have hpath := entryHeader_path_ne e (hok e (by simp))
    have hdirEq := entryHeader_isDir e (hok e (by simp))
    have hLh : (headerRecord (entryHeader e)).length
        = (encodeFileHeader (entryHeader e) ++ [10]).length + 1 := by
      rw [headerRecord_split]
      simp
    by_cases hdir : e.isDir
    · have htot : ((e :: es).map entryBytes).flatten ++ sentinelRecord
          = headerRecord (entryHeader e)
            ++ 48 :: 0 :: ((es.map entryBytes).flatten ++ sentinelRecord) := by
        simp only [List.map_cons, List.flatten_cons, List.append_assoc, entryBytes,
          hdir, ite_true, chunkRecord_nil]
        simp
      rw [htot] at hm ⊢
      by_cases hmH : m ≤ (encodeFileHeader (entryHeader e) ++ [10]).length
      · have htk : (headerRecord (entryHeader e)
              ++ 48 :: 0 :: ((es.map entryBytes).flatten ++ sentinelRecord)).take m
            = (encodeFileHeader (entryHeader e) ++ [10]).take m := by
          rw [headerRecord_split]
          rw [show ((encodeFileHeader (entryHeader e) ++ [10]) ++ [0])
              ++ 48 :: 0 :: ((es.map entryBytes).flatten ++ sentinelRecord)
              = (encodeFileHeader (entryHeader e) ++ [10])
                ++ (0 :: 48 :: 0 :: ((es.map entryBytes).flatten ++ sentinelRecord))
            from by simp [List.append_assoc]]
          rw [List.take_append_of_le_length hmH]
        rw [htk, readEntries,
          next_no_delim _ (fun hmem =>
            zero_not_mem_headerBody (entryHeader e) (List.take_subset m _ hmem)) f er]
        exact ⟨acc, rfl⟩
      · push_neg at hmH
        have hmsplit : m = (headerRecord (entryHeader e)).length
            + (m - (headerRecord (entryHeader e)).length) := by
          omega
        have htk : (headerRecord (entryHeader e)
              ++ 48 :: 0 :: ((es.map entryBytes).flatten ++ sentinelRecord)).take m
            = headerRecord (entryHeader e)
              ++ (48 :: 0 :: ((es.map entryBytes).flatten ++ sentinelRecord)).take
                  (m - (headerRecord (entryHeader e)).length) := by
          conv_lhs => rw [hmsplit]
          rw [List.take_append]
        rw [htk]
        by_cases hm2 : m - (headerRecord (entryHeader e)).length < 2
        · have h0t : (0 : Nat) ∉ (48 :: 0 :: ((es.map entryBytes).flatten
              ++ sentinelRecord)).take (m - (headerRecord (entryHeader e)).length) := by
            rcases (show m - (headerRecord (entryHeader e)).length = 0
                ∨ m - (headerRecord (entryHeader e)).length = 1 by omega) with h | h
            · rw [h]
              simp
            · rw [h]
              simp only [List.take_succ_cons, List.take_zero]
              decide
          rw [readEntries, next_dir_trunc _ h0t (entryHeader e) f er hmode
            (by rw [hdirEq, hdir]) hpath]
          exact ⟨acc, rfl⟩
        · push_neg at hm2
          obtain ⟨m2, hm2eq⟩ : ∃ k, m - (headerRecord (entryHeader e)).length = k + 2 :=
            ⟨m - (headerRecord (entryHeader e)).length - 2, by omega⟩
          rw [hm2eq]
          rw [show (48 :: 0 :: ((es.map entryBytes).flatten ++ sentinelRecord)).take (m2 + 2)
              = 48 :: 0 :: ((es.map entryBytes).flatten ++ sentinelRecord).take m2
            from by simp [List.take_succ_cons]]
          rw [readEntries, next_dir _ (entryHeader e) f er hmode
            (by rw [hdirEq, hdir]) hpath]
          simp only
          rw [drainFile_done _ (by omega) _ _ rfl []]
          simp only
          obtain ⟨acc2, hacc2⟩ := ih (fun x hx => hok x (by simp [hx])) m2 fuel
            (some ⟨entryHeader e, true, 0⟩) none (acc ++ [⟨entryHeader e, []⟩])
            (by
              simp only [List.map_cons, List.flatten_cons, List.length_append,
                List.length_cons] at hm
              simp only [List.length_append]
              omega)
            (by omega)
          rw [hacc2]
          exact ⟨acc2, rfl⟩
    · have htot : ((e :: es).map entryBytes).flatten ++ sentinelRecord
          = headerRecord (entryHeader e)
            ++ ((((e.body.filter (fun d => d ≠ [])).map chunkRecord).flatten ++ [48, 0])
                ++ ((es.map entryBytes).flatten ++ sentinelRecord)) := by
        simp only [List.map_cons, List.flatten_cons, List.append_assoc, entryBytes,
          hdir, Bool.false_eq_true, ite_false, chunkRecord_nil]
      rw [htot] at hm ⊢
      by_cases hmH : m ≤ (encodeFileHeader (entryHeader e) ++ [10]).length
      · have htk : (headerRecord (entryHeader e)
              ++ ((((e.body.filter (fun d => d ≠ [])).map chunkRecord).flatten ++ [48, 0])
                  ++ ((es.map entryBytes).flatten ++ sentinelRecord))).take m
            = (encodeFileHeader (entryHeader e) ++ [10]).take m := by
          rw [headerRecord_split, List.append_assoc,
            List.take_append_of_le_length hmH]
        rw [htk, readEntries,
          next_no_delim _ (fun hmem =>
            zero_not_mem_headerBody (entryHeader e) (List.take_subset m _ hmem)) f er]
        exact ⟨acc, rfl⟩
      · push_neg at hmH
        have hmsplit : m = (headerRecord (entryHeader e)).length
            + (m - (headerRecord (entryHeader e)).length) := by
          omega
        have htk : (headerRecord (entryHeader e)
              ++ ((((e.body.filter (fun d => d ≠ [])).map chunkRecord).flatten ++ [48, 0])
                  ++ ((es.map entryBytes).flatten ++ sentinelRecord))).take m
            = headerRecord (entryHeader e)
              ++ ((((e.body.filter (fun d => d ≠ [])).map chunkRecord).flatten ++ [48, 0])
                  ++ ((es.map entryBytes).flatten ++ sentinelRecord)).take
                    (m - (headerRecord (entryHeader e)).length) := by
          conv_lhs => rw [hmsplit]
          rw [List.take_append]
        rw [htk]
        by_cases hmB : m - (headerRecord (entryHeader e)).length
            < (((e.body.filter (fun d => d ≠ [])).map chunkRecord).flatten ++ [48, 0]).length
        · have htk2 : ((((e.body.filter (fun d => d ≠ [])).map chunkRecord).flatten
                ++ [48, 0]) ++ ((es.map entryBytes).flatten ++ sentinelRecord)).take
                  (m - (headerRecord (entryHeader e)).length)
              = (((e.body.filter (fun d => d ≠ [])).map chunkRecord).flatten
                  ++ [48, 0]).take (m - (headerRecord (entryHeader e)).length) :=
            List.take_append_of_le_length (le_of_lt hmB)
          rw [htk2, readEntries, next_file _ (entryHeader e) f er hmode
            (by rw [hdirEq]; simp [hdir]) hpath]
          simp only
          obtain ⟨bytes, r2, fr2, hdrain⟩ := drainFile_trunc
            (e.body.filter (fun d => d ≠ []))
            (fun x hx => by simpa using (List.of_mem_filter hx)) (entryHeader e)
            (m - (headerRecord (entryHeader e)).length)
            (((((e.body.filter (fun d => d ≠ [])).map chunkRecord).flatten
                ++ [48, 0]).take (m - (headerRecord (entryHeader e)).length)).length + 1)
            false false
            (some ⟨entryHeader e, false, 0⟩) none []
            hmB
            (by
              simp only [List.length_take]
              omega)
          rw [hdrain]
          exact ⟨acc ++ [⟨entryHeader e, bytes⟩], rfl⟩
        · push_neg at hmB
          have hmsplit2 : m - (headerRecord (entryHeader e)).length
              = (((e.body.filter (fun d => d ≠ [])).map chunkRecord).flatten
                  ++ [48, 0]).length
                + (m - (headerRecord (entryHeader e)).length
                  - (((e.body.filter (fun d => d ≠ [])).map chunkRecord).flatten
                      ++ [48, 0]).length) := by
            omega
          have htk2 : ((((e.body.filter (fun d => d ≠ [])).map chunkRecord).flatten
                ++ [48, 0]) ++ ((es.map entryBytes).flatten ++ sentinelRecord)).take
                  (m - (headerRecord (entryHeader e)).length)
              = (((e.body.filter (fun d => d ≠ [])).map chunkRecord).flatten ++ [48, 0])
                ++ ((es.map entryBytes).flatten ++ sentinelRecord).take
                  (m - (headerRecord (entryHeader e)).length
                    - (((e.body.filter (fun d => d ≠ [])).map chunkRecord).flatten
                        ++ [48, 0]).length) := by
            conv_lhs => rw [hmsplit2]
            rw [List.take_append]
          rw [htk2]
          simp only [List.append_assoc, List.cons_append, List.nil_append]
          rw [readEntries, next_file _ (entryHeader e) f er hmode
            (by rw [hdirEq]; simp [hdir]) hpath]
          simp only
          rw [drainFile_success (e.body.filter (fun d => d ≠ []))
            (fun x hx => by simpa using (List.of_mem_filter hx)) (entryHeader e)
            _ false false (some ⟨entryHeader e, false, 0⟩) none _ [] (by
              simp only [List.length_append, List.length_cons]
              have := chunkFlat_length_ge (e.body.filter (fun d => d ≠ []))
              omega)]
          simp only [List.nil_append]
          obtain ⟨acc2, hacc2⟩ := ih (fun x hx => hok x (by simp [hx]))
            (m - (headerRecord (entryHeader e)).length
              - (((e.body.filter (fun d => d ≠ [])).map chunkRecord).flatten
                  ++ [48, 0]).length) fuel
            (some ⟨entryHeader e, false, 0⟩) none
            (acc ++ [⟨entryHeader e, (e.body.filter (fun d => d ≠ [])).flatten⟩])
            (by
              simp only [List.length_append] at hm hmB ⊢
              omega)
            (by omega)
          rw [hacc2]
          exact ⟨acc2, rfl⟩

theorem readStream_trunc_header (src : List Nat) (k : Nat)
    (hk : k ≤ (encodeStreamHeader [] ++ [10]).length) :
    readStream id ((streamHeaderRecord [] ++ src).take k) = .error .eof := by
  have htk : (streamHeaderRecord [] ++ src).take k
      = (encodeStreamHeader [] ++ [10]).take k := by
    rw [show streamHeaderRecord [] ++ src
        = (encodeStreamHeader [] ++ [10]) ++ (0 :: src) from by
      simp [streamHeaderRecord, List.append_assoc]]
    rw [List.take_append_of_le_length hk]
  rw [htk]
  unfold readStream Reader.new
  rw [readString0_zeroFree _ (fun hmem =>
    zero_not_mem_streamHeaderBody [] (List.take_subset k _ hmem))]

theorem readStream_trunc_late (es : List EntrySpec) (hok : ∀ e ∈ es, e.ok) (k : Nat)
    (hk14 : (streamHeaderRecord []).length ≤ k)
    (hk : k < (streamHeaderRecord []
      ++ ((es.map entryBytes).flatten ++ sentinelRecord)).length) :
    ∃ es2 : List EntryOut,
    readStream id ((streamHeaderRecord []
        ++ ((es.map entryBytes).flatten ++ sentinelRecord)).take k)
      = .ok (es2, some .unexpectedEOF) := by
  have hsplit : k = (streamHeaderRecord []).length
      + (k - (streamHeaderRecord []).length) := by
    omega
  have htk : (streamHeaderRecord []
        ++ ((es.map entryBytes).flatten ++ sentinelRecord)).take k
      = streamHeaderRecord []
        ++ ((es.map entryBytes).flatten ++ sentinelRecord).take
            (k - (streamHeaderRecord []).length) := by
    conv_lhs => rw [hsplit]
    rw [List.take_append]
  rw [htk]
  unfold readStream Reader.new
  rw [readString0_streamHeaderRecord [] _]
  simp only
  rw [unmarshalStreamHeader_encode []]
  simp only
  rw [if_neg (by decide : ¬((0 : Int) > 0)), if_pos trivial]
  simp only
  have hmlt : k - (streamHeaderRecord []).length
      < ((es.map entryBytes).flatten ++ sentinelRecord).length := by
    simp only [List.length_append] at hk ⊢
    omega
  obtain ⟨es2, h2⟩ := readEntries_trunc es hok (k - (streamHeaderRecord []).length)
    ((((es.map entryBytes).flatten ++ sentinelRecord).take
        (k - (streamHeaderRecord []).length)).length + 2)
    none none []
    hmlt
    (by
      simp only [List.length_take, List.length_append] at hmlt ⊢
      omega)
  rw [h2]
  exact ⟨es2, rfl⟩

/-! ## Encode.go variant and closed-writer lemmas -/

theorem startFileE_open (c : Nat) (wr : Bool) (out : List Nat) (hdr : FileHeader)
    (hpath : hdr.path.contains '\x00' = false) :
    Writer.startFileE ⟨c, wr, out, false⟩ hdr
      = (none, ⟨c, wr, out ++ headerRecord hdr, false⟩) := by
  unfold Writer.startFileE
  simp [hpath]
  simpa using hpath

theorem fileWriterE_write_fresh_nil (c : Nat) (out : List Nat) (hdr : FileHeader)
    (hpath : hdr.path.contains '\x00' = false) :
    FileWriterE.write ⟨c, true, out, false⟩ ⟨c, false, hdr⟩ []
      = (.ok 0, ⟨c, true, out ++ headerRecord hdr, false⟩, ⟨c, true, hdr⟩) := by
  unfold FileWriterE.write
  rw [if_pos rfl, startFileE_open c true out hdr hpath]
  rfl

theorem fileWriterE_write_fresh (c : Nat) (out : List Nat) (hdr : FileHeader)
    (hpath : hdr.path.contains '\x00' = false) (dat : List Nat) (hdat : dat ≠ []) :
    FileWriterE.write ⟨c, true, out, false⟩ ⟨c, false, hdr⟩ dat
      = (.ok dat.length, ⟨c, true, out ++ headerRecord hdr ++ chunkRecord dat, false⟩,
         ⟨c, true, hdr⟩) := by
  unfold FileWriterE.write
  rw [if_pos rfl, startFileE_open c true out hdr hpath]
  simp only [hdat, ite_false]
  rw [write_open]

theorem fileWriterE_write_started_nil (c n : Nat) (out : List Nat) (hdr : FileHeader) :
    FileWriterE.write ⟨c, true, out, false⟩ ⟨n, true, hdr⟩ []
      = (.ok 0, ⟨c, true, out, false⟩, ⟨n, true, hdr⟩) := by
  unfold FileWriterE.write
  rw [if_neg (by simp), if_pos rfl]

theorem fileWriterE_close_fresh (c : Nat) (out : List Nat) (hdr : FileHeader)
    (hpath : hdr.path.contains '\x00' = false) :
    FileWriterE.close ⟨c, true, out, false⟩ ⟨c, false, hdr⟩
      = (none, ⟨c, false, out ++ headerRecord hdr ++ chunkRecord [], false⟩,
         ⟨c, true, hdr⟩) := by
  unfold FileWriterE.close
  rw [if_pos rfl, fileWriterE_write_fresh_nil c out hdr hpath]
  simp only
  rw [write_open]

theorem write_closed (c : Nat) (wr : Bool) (out : List Nat) (file : Nat)
    (dat : List Nat) :
    Writer.write ⟨c, wr, out, true⟩ file dat
      = (.error .streamClosed, ⟨c, wr, out, true⟩) := by
  unfold Writer.write
  rw [if_pos rfl]

theorem startFileD_closed (c : Nat) (wr : Bool) (out : List Nat) (hdr : FileHeader) :
    Writer.startFileD ⟨c, wr, out, true⟩ hdr
      = (.error .streamClosed, ⟨c, wr, out, true⟩) := by
  unfold Writer.startFileD
  rw [if_pos rfl]

theorem startFileE_closed (c : Nat) (wr : Bool) (out : List Nat) (hdr : FileHeader) :
    Writer.startFileE ⟨c, wr, out, true⟩ hdr
      = (some .streamClosed, ⟨c, wr, out, true⟩) := by
  unfold Writer.startFileE
  rw [if_pos rfl]

theorem fileE_open (c : Nat) (out : List Nat) (cl : Bool) (path : List Char)
    (opts : FileOptions) :
    Writer.fileE ⟨c, false, out, cl⟩ path opts
      = (.ok ⟨c + 1, false, ⟨path, opts.user, opts.group, opts.permissions⟩⟩,
         ⟨c + 1, true, out, cl⟩) := by
  unfold Writer.fileE
  rw [if_neg (by simp)]

theorem fileE_busy (c : Nat) (out : List Nat) (cl : Bool) (path : List Char)
    (opts : FileOptions) :
    Writer.fileE ⟨c, true, out, cl⟩ path opts
      = (.error .openBeforeFinish, ⟨c, true, out, cl⟩) := by
  unfold Writer.fileE
  rw [if_pos rfl]

theorem startFileD_busy (c : Nat) (out : List Nat) (hdr : FileHeader) :
    Writer.startFileD ⟨c, true, out, false⟩ hdr
      = (.error .alreadyStreaming, ⟨c, true, out, false⟩) := by
  unfold Writer.startFileD
  rw [if_neg (by simp), if_pos rfl]

theorem startFileD_illegal (c : Nat) (out : List Nat) (hdr : FileHeader)
    (hpath : hdr.path.contains '\x00' = true) :
    Writer.startFileD ⟨c, false, out, false⟩ hdr
      = (.error .illegalPath, ⟨c, false, out, false⟩) := by
  unfold Writer.startFileD
  rw [if_neg (by simp), if_neg (by simp), if_pos hpath]

theorem startFileE_illegal (c : Nat) (wr : Bool) (out : List Nat) (hdr : FileHeader)
    (hpath : hdr.path.contains '\x00' = true) :
    Writer.startFileE ⟨c, wr, out, false⟩ hdr
      = (some .illegalPath, ⟨c, wr, out, false⟩) := by
  unfold Writer.startFileE
  rw [if_neg (by simp), if_pos hpath]

theorem fileWriterE_write_closed (c : Nat) (wr : Bool) (out : List Nat) (n : Nat)
    (hdr : FileHeader) (dat : List Nat) :
    FileWriterE.write ⟨c, wr, out, true⟩ ⟨n, false, hdr⟩ dat
      = (.error .streamClosed, ⟨c, wr, out, true⟩, ⟨n, true, hdr⟩) := by
  unfold FileWriterE.write
  rw [if_pos rfl, startFileE_closed c wr out hdr]

theorem close_closed (c : Nat) (out : List Nat) :
    Writer.close ⟨c, false, out, true⟩
      = (none, ⟨c, false, out ++ sentinelRecord, true⟩) := by
  unfold Writer.close
  rfl

/-! ## Concrete record bytes -/

theorem sentinelRecordBytes : sentinelRecord
    = [123, 34, 112, 97, 116, 104, 34, 58, 34, 92, 117, 48, 48, 48, 48, 34,
       125, 10, 0] := by
  decide

theorem streamHeaderRecordEmpty : streamHeaderRecord []
    = [123, 34, 118, 101, 114, 115, 105, 111, 110, 34, 58, 48, 125, 10, 0] := by
  have h1 : streamHeaderMembers [] = [jsonMember "version" [48]] := by
    unfold streamHeaderMembers
    rw [natDigits_zero]
    simp
  unfold streamHeaderRecord encodeStreamHeader
  rw [h1]
  decide

/-! ## Claim theorems -/

/-- C1: writing any finite sequence of well-formed entries (no 0x00
byte in a path, permission word below the directory bit) with
Writer.Directory / Writer.File, the body writes and Close, then
reading the produced stream with NewReader and the Next/File/Read
loop, reproduces exactly the same ordered sequence of paths, modes
(directory bit included), users, groups and concatenated body bytes,
with every directory body empty — for the no-compression
configuration and for every supported compression name under a
faithfully inverting codec pair. -/
theorem C1_roundtrip (es : List EntrySpec) (hok : ∀ e ∈ es, e.ok)
    (compression : List Char)
    (hcomp : compression = [] ∨ compression = "gzip".toList
      ∨ compression = "lz4".toList)
    (comp decomp : List Nat → List Nat)
    (hinv : ∀ l : List Nat, decomp (comp l) = l) :
    ∃ framed : List Nat,
      writeStream es = (none, framed)
      ∧ readStream decomp (assembled compression comp framed)
          = .ok (es.map entryOut, none) :=
  ⟨(es.map entryBytes).flatten ++ sentinelRecord, writeStream_ok es hok,
    readStream_ok es hok compression hcomp comp decomp (hinv _)⟩

theorem C1_roundtrip_witness :
    (∀ e ∈ [(⟨"/".toList, true, 493, [], [], []⟩ : EntrySpec),
        ⟨"/hello.txt".toList, false, 420, [], [], [asciiBytes "hello world"]⟩], e.ok)
    ∧ ∃ framed : List Nat,
      writeStream [(⟨"/".toList, true, 493, [], [], []⟩ : EntrySpec),
          ⟨"/hello.txt".toList, false, 420, [], [], [asciiBytes "hello world"]⟩]
        = (none, framed)
      ∧ readStream id (assembled [] id framed)
          = .ok ([(⟨"/".toList, true, 493, [], [], []⟩ : EntrySpec),
              ⟨"/hello.txt".toList, false, 420, [], [],
                [asciiBytes "hello world"]⟩].map entryOut, none) :=
  ⟨by
     intro e he
     rcases List.mem_cons.mp he with rfl | he
     · exact ⟨by decide, by decide⟩
     rcases List.mem_cons.mp he with rfl | he
     · exact ⟨by decide, by decide⟩
     · exact absurd he (List.not_mem_nil e),
   C1_roundtrip [⟨"/".toList, true, 493, [], [], []⟩,
      ⟨"/hello.txt".toList, false, 420, [], [], [asciiBytes "hello world"]⟩]
     (by
       intro e he
       rcases List.mem_cons.mp he with rfl | he
       · exact ⟨by decide, by decide⟩
       rcases List.mem_cons.mp he with rfl | he
       · exact ⟨by decide, by decide⟩
       · exact absurd he (List.not_mem_nil e))
     [] (Or.inl rfl) id id (fun l => rfl)⟩

/-- C3: on an open entry, one Write of a nonzero-length slice appends
exactly one chunk record — the decimal ASCII digits of the slice
length, one 0x00 byte, then exactly the slice bytes, no trailing
delimiter — and a run of Write calls appends exactly one such record
per nonzero-length call, in call order, so the chunk count equals the
nonzero-write count. -/
theorem C3_chunk_per_write (c : Nat) (out dat : List Nat) (hdat : dat ≠ [])
    (hdr : FileHeader) (hc : c ≠ 0) (ds : List (List Nat)) :
    Writer.write ⟨c, true, out, false⟩ c dat
      = (.ok dat.length,
         ⟨c, true, out ++ (natDigits dat.length ++ [0] ++ dat), false⟩)
    ∧ writeBodyLoop ⟨c, true, out, false⟩ ⟨c, hdr⟩ ds
        = (none, ⟨c, true,
            out ++ ((ds.filter (fun d => d ≠ [])).map chunkRecord).flatten, false⟩,
           ⟨c, hdr⟩) := by
  constructor
  · have h := write_open c out dat
    rw [show chunkRecord dat = natDigits dat.length ++ [0] ++ dat from rfl] at h
    exact h
  · exact writeBodyLoop_started c hc hdr ds out

theorem C3_chunk_per_write_witness :
    (([7] : List Nat) ≠ [] ∧ (1 : Nat) ≠ 0)
    ∧ (Writer.write ⟨1, true, [], false⟩ 1 [7]
        = (.ok ([7] : List Nat).length,
           ⟨1, true, [] ++ (natDigits ([7] : List Nat).length ++ [0] ++ [7]), false⟩)
      ∧ writeBodyLoop ⟨1, true, [], false⟩ ⟨1, ⟨['a'], [], [], 0⟩⟩ [[1], [], [2, 3]]
          = (none, ⟨1, true,
              [] ++ ((([[1], [], [2, 3]] : List (List Nat)).filter
                (fun d => d ≠ [])).map chunkRecord).flatten, false⟩,
             ⟨1, ⟨['a'], [], [], 0⟩⟩)) :=
  ⟨⟨by decide, by decide⟩,
   C3_chunk_per_write 1 [] [7] (by decide) ⟨['a'], [], [], 0⟩ (by decide)
     [[1], [], [2, 3]]⟩

/-- C4: opening an entry and closing it with no intervening Write
calls appends exactly one header record followed by exactly one
zero-length terminator chunk (the byte '0' then 0x00) — the header of
a never-written entry is emitted exactly once, in both writer
variants. -/
theorem C4_empty_entry (c : Nat) (out : List Nat) (path user group : List Char)
    (mode : Nat) (hpath : path.contains '\x00' = false) :
    FileWriterD.close ⟨c, false, out, false⟩ (Writer.fileD path ⟨mode, user, group⟩)
      = (none, ⟨c + 1, false,
          out ++ headerRecord ⟨path, user, group, mode⟩ ++ [48, 0], false⟩,
         ⟨c + 1, ⟨path, user, group, mode⟩⟩)
    ∧ FileWriterE.close ⟨c + 1, true, out, false⟩
        ⟨c + 1, false, ⟨path, user, group, mode⟩⟩
      = (none, ⟨c + 1, false,
          out ++ headerRecord ⟨path, user, group, mode⟩ ++ [48, 0], false⟩,
         ⟨c + 1, true, ⟨path, user, group, mode⟩⟩) := by
  constructor
  · have h := fileWriterD_close_fresh c out ⟨path, user, group, mode⟩ hpath
    rw [show Writer.fileD path ⟨mode, user, group⟩
        = (⟨0, ⟨path, user, group, mode⟩⟩ : FileWriterD) from rfl]
    rw [h, chunkRecord_nil]
  · rw [fileWriterE_close_fresh (c + 1) out ⟨path, user, group, mode⟩ hpath,
      chunkRecord_nil]

theorem C4_empty_entry_witness :
    (['a'] : List Char).contains '\x00' = false
    ∧ (FileWriterD.close ⟨0, false, [], false⟩ (Writer.fileD ['a'] ⟨7, [], []⟩)
        = (none, ⟨1, false,
            [] ++ headerRecord ⟨['a'], [], [], 7⟩ ++ [48, 0], false⟩,
           ⟨1, ⟨['a'], [], [], 7⟩⟩)
      ∧ FileWriterE.close ⟨1, true, [], false⟩ ⟨1, false, ⟨['a'], [], [], 7⟩⟩
          = (none, ⟨1, false,
              [] ++ headerRecord ⟨['a'], [], [], 7⟩ ++ [48, 0], false⟩,
             ⟨1, true, ⟨['a'], [], [], 7⟩⟩)) :=
  ⟨by decide, C4_empty_entry 0 [] ['a'] [] [] 7 (by decide)⟩

/-- C5: opening an entry while one is open fails with the sequencing
error of each writer variant and appends no bytes; calling Next on the
Reader before the previous body is drained to its terminator returns
false with the sequencing error and consumes no input. -/
theorem C5_sequencing (c : Nat) (out : List Nat) (cl : Bool) (path : List Char)
    (opts : FileOptions) (hdr : FileHeader) (inp : List Nat) (f : Option FRState)
    (er : Option ReadError) :
    Writer.fileE ⟨c, true, out, cl⟩ path opts
        = (.error .openBeforeFinish, ⟨c, true, out, cl⟩)
    ∧ Writer.startFileD ⟨c, true, out, false⟩ hdr
        = (.error .alreadyStreaming, ⟨c, true, out, false⟩)
    ∧ Reader.next ⟨false, false, inp, f, er⟩
        = (false, ⟨false, false, inp, none, some .seqNext⟩) :=
  ⟨fileE_busy c out cl path opts, startFileD_busy c out hdr, next_seq inp f er⟩

/-- C6: opening an entry whose path contains a 0x00 byte fails with
the illegal-path error before any bytes of the entry are written, in
both writer variants; in particular the reserved single-0x00
terminator path can never be emitted as a real entry. -/
theorem C6_illegal_path (c : Nat) (wr : Bool) (out : List Nat) (hdr : FileHeader)
    (hpath : hdr.path.contains '\x00' = true) :
    Writer.startFileD ⟨c, false, out, false⟩ hdr
        = (.error .illegalPath, ⟨c, false, out, false⟩)
    ∧ Writer.startFileE ⟨c, wr, out, false⟩ hdr
        = (some .illegalPath, ⟨c, wr, out, false⟩) :=
  ⟨startFileD_illegal c out hdr hpath, startFileE_illegal c wr out hdr hpath⟩

theorem C6_illegal_path_witness :
    sentinelHeader.path.contains '\x00' = true
    ∧ (Writer.startFileD ⟨0, false, [], false⟩ sentinelHeader
        = (.error .illegalPath, ⟨0, false, [], false⟩)
      ∧ Writer.startFileE ⟨0, false, [], false⟩ sentinelHeader
          = (some .illegalPath, ⟨0, false, [], false⟩)) :=
  ⟨by decide, C6_illegal_path 0 false [] sentinelHeader (by decide)⟩

/-- C10: writing an empty slice on an open file entry returns (0, nil)
and appends no chunk record — it never emits the zero-length
terminator, so the entry stays open — while, as the entry's first
operation, it still emits the deferred header exactly once; on an
already-started handle it changes nothing.  Both writer variants. -/
theorem C10_empty_write (c : Nat) (out : List Nat) (hdr : FileHeader)
    (hpath : hdr.path.contains '\x00' = false) (hc : c ≠ 0) :
    FileWriterD.write ⟨c, false, out, false⟩ ⟨0, hdr⟩ []
        = (.ok 0, ⟨c + 1, true, out ++ headerRecord hdr, false⟩, ⟨c + 1, hdr⟩)
    ∧ FileWriterD.write ⟨c, true, out, false⟩ ⟨c, hdr⟩ []
        = (.ok 0, ⟨c, true, out, false⟩, ⟨c, hdr⟩)
    ∧ FileWriterE.write ⟨c, true, out, false⟩ ⟨c, false, hdr⟩ []
        = (.ok 0, ⟨c, true, out ++ headerRecord hdr, false⟩, ⟨c, true, hdr⟩)
    ∧ FileWriterE.write ⟨c, true, out, false⟩ ⟨c, true, hdr⟩ []
        = (.ok 0, ⟨c, true, out, false⟩, ⟨c, true, hdr⟩) :=
  ⟨fileWriterD_write_fresh_nil c out hdr hpath,
   fileWriterD_write_started_nil c out hdr hc,
   fileWriterE_write_fresh_nil c out hdr hpath,
   fileWriterE_write_started_nil c c out hdr⟩

theorem C10_empty_write_witness :
    ((⟨['a'], [], [], 0⟩ : FileHeader).path.contains '\x00' = false ∧ (1 : Nat) ≠ 0)
    ∧ (FileWriterD.write ⟨1, false, [], false⟩ ⟨0, ⟨['a'], [], [], 0⟩⟩ []
        = (.ok 0, ⟨2, true, [] ++ headerRecord ⟨['a'], [], [], 0⟩, false⟩,
           ⟨2, ⟨['a'], [], [], 0⟩⟩)
      ∧ FileWriterD.write ⟨1, true, [], false⟩ ⟨1, ⟨['a'], [], [], 0⟩⟩ []
          = (.ok 0, ⟨1, true, [], false⟩, ⟨1, ⟨['a'], [], [], 0⟩⟩)
      ∧ FileWriterE.write ⟨1, true, [], false⟩ ⟨1, false, ⟨['a'], [], [], 0⟩⟩ []
          = (.ok 0, ⟨1, true, [] ++ headerRecord ⟨['a'], [], [], 0⟩, false⟩,
             ⟨1, true, ⟨['a'], [], [], 0⟩⟩)
      ∧ FileWriterE.write ⟨1, true, [], false⟩ ⟨1, true, ⟨['a'], [], [], 0⟩⟩ []
          = (.ok 0, ⟨1, true, [], false⟩, ⟨1, true, ⟨['a'], [], [], 0⟩⟩)) :=
  ⟨⟨by decide, by decide⟩,
   C10_empty_write 1 [] ⟨['a'], [], [], 0⟩ (by decide) (by decide)⟩

/-- C2 (amended): cutting a well-formed no-compression stream at any
point strictly before its end is never reported as a clean end: a cut
inside the plaintext stream-header record makes NewReader fail with
io.EOF passed through verbatim (not io.ErrUnexpectedEOF), and every
later cut makes the read loop end with io.ErrUnexpectedEOF. -/
theorem C2_truncation (es : List EntrySpec) (hok : ∀ e ∈ es, e.ok) (k : Nat)
    (hk : k < (streamHeaderRecord []
      ++ ((es.map entryBytes).flatten ++ sentinelRecord)).length) :
    (k < (streamHeaderRecord []).length
      ∧ readStream id ((streamHeaderRecord []
          ++ ((es.map entryBytes).flatten ++ sentinelRecord)).take k)
        = .error .eof)
    ∨ ((streamHeaderRecord []).length ≤ k
      ∧ ∃ es2 : List EntryOut,
        readStream id ((streamHeaderRecord []
            ++ ((es.map entryBytes).flatten ++ sentinelRecord)).take k)
          = .ok (es2, some .unexpectedEOF)) := by
  have hlen : (streamHeaderRecord []).length
      = (encodeStreamHeader [] ++ [10]).length + 1 := by
    rw [show streamHeaderRecord [] = (encodeStreamHeader [] ++ [10]) ++ [0] from by
      simp [streamHeaderRecord, List.append_assoc]]
    simp
  by_cases hkL : k < (streamHeaderRecord []).length
  · exact Or.inl ⟨hkL, readStream_trunc_header _ k (by omega)⟩
  · push_neg at hkL
    exact Or.inr ⟨hkL, readStream_trunc_late es hok k hkL hk⟩

theorem C2_truncation_witness :
    1 < (streamHeaderRecord []
      ++ ((([] : List EntrySpec).map entryBytes).flatten ++ sentinelRecord)).length
    ∧ ((1 < (streamHeaderRecord []).length
        ∧ readStream id ((streamHeaderRecord []
            ++ ((([] : List EntrySpec).map entryBytes).flatten
              ++ sentinelRecord)).take 1)
          = .error .eof)
      ∨ ((streamHeaderRecord []).length ≤ 1
        ∧ ∃ es2 : List EntryOut,
          readStream id ((streamHeaderRecord []
              ++ ((([] : List EntrySpec).map entryBytes).flatten
                ++ sentinelRecord)).take 1)
            = .ok (es2, some .unexpectedEOF))) :=
  ⟨by rw [streamHeaderRecordEmpty, sentinelRecordBytes]; decide,
   C2_truncation [] (fun e he => absurd he (List.not_mem_nil e)) 1
     (by rw [streamHeaderRecordEmpty, sentinelRecordBytes]; decide)⟩

theorem C2_truncation_counterexample :
    readStream id ((streamHeaderRecord []
        ++ ((([] : List EntrySpec).map entryBytes).flatten ++ sentinelRecord)).take 1)
      = .error .eof
    ∧ ReadError.eof ≠ ReadError.unexpectedEOF
    ∧ 1 < (streamHeaderRecord []
        ++ ((([] : List EntrySpec).map entryBytes).flatten ++ sentinelRecord)).length := by
  refine ⟨?_, by decide, by rw [streamHeaderRecordEmpty, sentinelRecordBytes]; decide⟩
  rw [streamHeaderRecordEmpty, sentinelRecordBytes]
  rfl

/-- C7: closing the Writer while an entry is still open returns
ErrWriteInterrupted and appends nothing — the output keeps no
terminator record — and feeding the bytes produced so far to a Reader
ends with io.ErrUnexpectedEOF, never a clean end. -/
theorem C7_interrupted_close (es : List EntrySpec) (hok : ∀ x ∈ es, x.ok)
    (path user group : List Char) (mode : Nat) (d : List Nat)
    (hpath : path.contains '\x00' = false) (hmode : mode < modeDir)
    (hd : d ≠ []) :
    writeEntriesLoop WriterState.init es
        = (none, ⟨es.length, false, (es.map entryBytes).flatten, false⟩)
    ∧ FileWriterD.write ⟨es.length, false, (es.map entryBytes).flatten, false⟩
        (Writer.fileD path ⟨mode, user, group⟩) d
        = (.ok d.length, ⟨es.length + 1, true,
            (es.map entryBytes).flatten ++ headerRecord ⟨path, user, group, mode⟩
              ++ chunkRecord d, false⟩,
           ⟨es.length + 1, ⟨path, user, group, mode⟩⟩)
    ∧ Writer.close ⟨es.length + 1, true,
        (es.map entryBytes).flatten ++ headerRecord ⟨path, user, group, mode⟩
          ++ chunkRecord d, false⟩
        = (some .writeInterrupted, ⟨es.length + 1, true,
            (es.map entryBytes).flatten ++ headerRecord ⟨path, user, group, mode⟩
              ++ chunkRecord d, true⟩)
    ∧ ∃ es2 : List EntryOut,
        readStream id (streamHeaderRecord []
            ++ ((es.map entryBytes).flatten ++ headerRecord ⟨path, user, group, mode⟩
              ++ chunkRecord d))
          = .ok (es2, some .unexpectedEOF) := by
  refine ⟨?_, ?_, close_interrupted _ _, ?_⟩
  · have h := writeEntriesLoop_ok es hok 0 []
    simpa using h
  · have h := fileWriterD_write_fresh es.length ((es.map entryBytes).flatten)
      ⟨path, user, group, mode⟩ hpath d hd
    rw [show Writer.fileD path ⟨mode, user, group⟩
        = (⟨0, ⟨path, user, group, mode⟩⟩ : FileWriterD) from rfl]
    exact h
  · have hok2 : ∀ x ∈ es ++ [(⟨path, false, mode, user, group, [d]⟩ : EntrySpec)],
        x.ok := by
      intro x hx
      rcases List.mem_append.mp hx with hx | hx
      · exact hok x hx
      · rcases List.mem_cons.mp hx with rfl | hx
        · exact ⟨hpath, hmode⟩
        · exact absurd hx (List.not_mem_nil x)
    have hhd : entryHeader ⟨path, false, mode, user, group, [d]⟩
        = ⟨path, user, group, mode⟩ := rfl
    have hX : ((es ++ [(⟨path, false, mode, user, group, [d]⟩ : EntrySpec)]).map
          entryBytes).flatten ++ sentinelRecord
        = ((es.map entryBytes).flatten ++ headerRecord ⟨path, user, group, mode⟩
            ++ chunkRecord d) ++ ([48, 0] ++ sentinelRecord) := by
      rw [List.map_append, List.flatten_append]
      simp only [List.map_cons, List.map_nil, List.flatten_cons, List.flatten_nil,
        List.append_nil]
      rw [show entryBytes ⟨path, false, mode, user, group, [d]⟩
          = headerRecord ⟨path, user, group, mode⟩
            ++ ((([d].filter (fun x => x ≠ [])).map chunkRecord).flatten)
            ++ chunkRecord [] from by
        simp only [entryBytes, hhd]
        rfl]
      rw [List.filter_cons_of_pos (by simpa using hd)]
      simp only [List.filter_nil, List.map_cons, List.map_nil, List.flatten_cons,
        List.flatten_nil, List.append_nil, chunkRecord_nil]
      simp [List.append_assoc]
    have hlen2 : ((es ++ [(⟨path, false, mode, user, group, [d]⟩ : EntrySpec)]).map
          entryBytes).flatten ++ sentinelRecord
        = ((es.map entryBytes).flatten ++ headerRecord ⟨path, user, group, mode⟩
            ++ chunkRecord d) ++ ([48, 0] ++ sentinelRecord) := hX
    obtain ⟨es2, h2⟩ := readStream_trunc_late
      (es ++ [⟨path, false, mode, user, group, [d]⟩]) hok2
      ((streamHeaderRecord []).length
        + ((es.map entryBytes).flatten ++ headerRecord ⟨path, user, group, mode⟩
            ++ chunkRecord d).length)
      (by omega)
      (by
        rw [List.length_append, hX]
        have hsp : (0 : Nat) < sentinelRecord.length := by
          rw [sentinelRecordBytes]
          decide
        simp only [List.length_append, List.length_cons, List.length_nil]
        omega)
    have htk : (streamHeaderRecord []
          ++ (((es ++ [(⟨path, false, mode, user, group, [d]⟩ : EntrySpec)]).map
            entryBytes).flatten ++ sentinelRecord)).take
            ((streamHeaderRecord []).length
              + ((es.map entryBytes).flatten
                ++ headerRecord ⟨path, user, group, mode⟩ ++ chunkRecord d).length)
        = streamHeaderRecord []
          ++ ((es.map entryBytes).flatten ++ headerRecord ⟨path, user, group, mode⟩
            ++ chunkRecord d) := by
      rw [List.take_append, hX, List.take_left]
    rw [htk] at h2
    exact ⟨es2, h2⟩

theorem C7_interrupted_close_witness :
    ((['a'] : List Char).contains '\x00' = false ∧ (0 : Nat) < modeDir
      ∧ ([5] : List Nat) ≠ [])
    ∧ (writeEntriesLoop WriterState.init []
        = (none, ⟨0, false, (([] : List EntrySpec).map entryBytes).flatten, false⟩)
      ∧ FileWriterD.write ⟨0, false, (([] : List EntrySpec).map entryBytes).flatten,
          false⟩ (Writer.fileD ['a'] ⟨0, [], []⟩) [5]
        = (.ok ([5] : List Nat).length, ⟨1, true,
            (([] : List EntrySpec).map entryBytes).flatten
              ++ headerRecord ⟨['a'], [], [], 0⟩ ++ chunkRecord [5], false⟩,
           ⟨1, ⟨['a'], [], [], 0⟩⟩)
      ∧ Writer.close ⟨1, true, (([] : List EntrySpec).map entryBytes).flatten
          ++ headerRecord ⟨['a'], [], [], 0⟩ ++ chunkRecord [5], false⟩
        = (some .writeInterrupted, ⟨1, true,
            (([] : List EntrySpec).map entryBytes).flatten
              ++ headerRecord ⟨['a'], [], [], 0⟩ ++ chunkRecord [5], true⟩)
      ∧ ∃ es2 : List EntryOut,
          readStream id (streamHeaderRecord []
              ++ ((([] : List EntrySpec).map entryBytes).flatten
                ++ headerRecord ⟨['a'], [], [], 0⟩ ++ chunkRecord [5]))
            = .ok (es2, some .unexpectedEOF)) :=
  ⟨⟨by decide, by decide, by decide⟩,
   C7_interrupted_close [] (fun x hx => absurd hx (List.not_mem_nil x))
     ['a'] [] [] 0 [5] (by decide) (by decide) (by decide)⟩

/-- C8 (amended): after Close has returned, chunk writes and the
deferred-header path fail with the stream-closed error leaving the
output unchanged, and a write through an encode.go handle fails the
same way; but Writer.File of encode.go still hands out a fresh handle
with no error, and Close itself never checks the closed flag — a
second Close returns nil and appends the terminator record again. -/
theorem C8_after_close (c : Nat) (wr : Bool) (out : List Nat) (file : Nat)
    (dat : List Nat) (hdr : FileHeader) (path : List Char) (opts : FileOptions)
    (n : Nat) :
    Writer.write ⟨c, wr, out, true⟩ file dat
        = (.error .streamClosed, ⟨c, wr, out, true⟩)
    ∧ Writer.startFileD ⟨c, wr, out, true⟩ hdr
        = (.error .streamClosed, ⟨c, wr, out, true⟩)
    ∧ FileWriterE.write ⟨c, wr, out, true⟩ ⟨n, false, hdr⟩ dat
        = (.error .streamClosed, ⟨c, wr, out, true⟩, ⟨n, true, hdr⟩)
    ∧ Writer.fileE ⟨c, false, out, true⟩ path opts
        = (.ok ⟨c + 1, false, ⟨path, opts.user, opts.group, opts.permissions⟩⟩,
           ⟨c + 1, true, out, true⟩)
    ∧ Writer.close ⟨c, false, out, true⟩
        = (none, ⟨c, false, out ++ sentinelRecord, true⟩) :=
  ⟨write_closed c wr out file dat, startFileD_closed c wr out hdr,
   fileWriterE_write_closed c wr out n hdr dat, fileE_open c out true path opts,
   close_closed c out⟩

theorem C8_counterexample :
    Writer.close ((Writer.close WriterState.init).2)
      = (none, ⟨0, false, sentinelRecord ++ sentinelRecord, true⟩)
    ∧ (Writer.close WriterState.init).2.out = sentinelRecord
    ∧ sentinelRecord ++ sentinelRecord ≠ sentinelRecord :=
  ⟨by decide, by decide, by decide⟩

/-- C9 (amended): after a failed Next the Reader never yields another
entry and never consumes further input: while the stream is not yet
closed (every truncation, format and sequencing error path leaves it
so) each further Next returns false with the sequencing error, so Err
stays non-nil; but once the Reader is closed (the clean end, and the
excess-data integrity error, which closes first) every further Next
returns false with Err reset to nil. -/
theorem C9_after_error (inp : List Nat) (f : Option FRState)
    (er : Option ReadError) (rd : Bool) :
    Reader.next ⟨false, false, inp, f, er⟩
        = (false, ⟨false, false, inp, none, some .seqNext⟩)
    ∧ Reader.next ⟨rd, true, inp, f, er⟩
        = (false, ⟨rd, true, inp, none, none⟩) :=
  ⟨next_seq inp f er, next_closed rd inp f er⟩

theorem C9_counterexample :
    Reader.next ⟨true, false, sentinelRecord ++ [1], none, none⟩
      = (false, ⟨false, true, [], none, some .excessData⟩)
    ∧ Reader.next ⟨false, true, [], none, some .excessData⟩
      = (false, ⟨false, true, [], none, none⟩)
    ∧ some ReadError.excessData ≠ (none : Option ReadError) :=
  ⟨by decide, by decide, by decide⟩

end Filestream
